import Mathlib

/-!
Verification of the paseo-core indexed document store engine
(`src/handlers/store.ts` and `src/handlers/responsesStore.ts`).

The TypeScript code is shallowly embedded: JSON documents become the
inductive `Json`, the zod validators compiled by `jsonSchemaToZod` (and the
fixed validator of `responsesStore.ts`) become the inductive `ZodType`
together with the executable parser `zparse`, and the HTTP handlers
become pure state-passing functions over explicit table states
(`ItemsDb`, `RespDb`).  JavaScript string comparison (used by `Array
.prototype.sort` and mirrored by SQLite's ordering of TEXT ids) is
modelled by a structural lexicographic comparison on the character data
(`jsLtB`); for strings of basic-plane characters this agrees with both
the UTF-16 code-unit order used by JS and the byte order used by SQLite.
JSON numbers are carried as `Int` — no claim computes with non-integral
numbers.
-/

/-- A JSON-like JavaScript value, as produced by `req.json()`.  Objects
are ordered lists of key/value pairs (JS object property order);
property keys coming from parsed JSON are duplicate-free. -/
inductive Json where
  | null
  | bool (b : Bool)
  | num (n : Int)
  | str (s : String)
  | arr (elems : List Json)
  | obj (fields : List (String × Json))

mutual

def Json.decEq : (a b : Json) → Decidable (a = b)
  | .null, .null => .isTrue rfl
  | .bool a, .bool b =>
      if h : a = b then .isTrue (h ▸ rfl) else .isFalse (fun he => h (Json.bool.inj he))
  | .num a, .num b =>
      if h : a = b then .isTrue (h ▸ rfl) else .isFalse (fun he => h (Json.num.inj he))
  | .str a, .str b =>
      if h : a = b then .isTrue (h ▸ rfl) else .isFalse (fun he => h (Json.str.inj he))
  | .arr xs, .arr ys =>
      match Json.decEqList xs ys with
      | .isTrue h => .isTrue (h ▸ rfl)
      | .isFalse h => .isFalse (fun he => h (Json.arr.inj he))
  | .obj fs, .obj gs =>
      match Json.decEqFields fs gs with
      | .isTrue h => .isTrue (h ▸ rfl)
      | .isFalse h => .isFalse (fun he => h (Json.obj.inj he))
  | .null, .bool _ => .isFalse nofun
  | .null, .num _ => .isFalse nofun
  | .null, .str _ => .isFalse nofun
  | .null, .arr _ => .isFalse nofun
  | .null, .obj _ => .isFalse nofun
  | .bool _, .null => .isFalse nofun
  | .bool _, .num _ => .isFalse nofun
  | .bool _, .str _ => .isFalse nofun
  | .bool _, .arr _ => .isFalse nofun
  | .bool _, .obj _ => .isFalse nofun
  | .num _, .null => .isFalse nofun
  | .num _, .bool _ => .isFalse nofun
  | .num _, .str _ => .isFalse nofun
  | .num _, .arr _ => .isFalse nofun
  | .num _, .obj _ => .isFalse nofun
  | .str _, .null => .isFalse nofun
  | .str _, .bool _ => .isFalse nofun
  | .str _, .num _ => .isFalse nofun
  | .str _, .arr _ => .isFalse nofun
  | .str _, .obj _ => .isFalse nofun
  | .arr _, .null => .isFalse nofun
  | .arr _, .bool _ => .isFalse nofun
  | .arr _, .num _ => .isFalse nofun
  | .arr _, .str _ => .isFalse nofun
  | .arr _, .obj _ => .isFalse nofun
  | .obj _, .null => .isFalse nofun
  | .obj _, .bool _ => .isFalse nofun
  | .obj _, .num _ => .isFalse nofun
  | .obj _, .str _ => .isFalse nofun
  | .obj _, .arr _ => .isFalse nofun

def Json.decEqList : (a b : List Json) → Decidable (a = b)
  | [], [] => .isTrue rfl
  | [], _ :: _ => .isFalse nofun
  | _ :: _, [] => .isFalse nofun
  | x :: xs, y :: ys =>
      match Json.decEq x y, Json.decEqList xs ys with
      | .isTrue h1, .isTrue h2 => .isTrue (by rw [h1, h2])
      | .isFalse h1, _ => .isFalse (fun he => h1 (List.cons.inj he).1)
      | _, .isFalse h2 => .isFalse (fun he => h2 (List.cons.inj he).2)

def Json.decEqFields : (a b : List (String × Json)) → Decidable (a = b)
  | [], [] => .isTrue rfl
  | [], _ :: _ => .isFalse nofun
  | _ :: _, [] => .isFalse nofun
  | (k, v) :: xs, (k', v') :: ys =>
      if hk : k = k' then
        match Json.decEq v v', Json.decEqFields xs ys with
        | .isTrue h1, .isTrue h2 => .isTrue (by rw [hk, h1, h2])
        | .isFalse h1, _ =>
            .isFalse (fun he => h1 (congrArg Prod.snd (List.cons.inj he).1))
        | _, .isFalse h2 => .isFalse (fun he => h2 (List.cons.inj he).2)
      else
        .isFalse (fun he => hk (congrArg Prod.fst (List.cons.inj he).1))

end

instance : DecidableEq Json := Json.decEq

/-- First binding of a key in a JS object's property list
(JS property access `o[k]`; `none` models `undefined`). -/
def lookupJ : List (String × Json) → String → Option Json
  | [], _ => none
  | (k', v) :: rest, k => if k' = k then some v else lookupJ rest k

/-- JavaScript truthiness of a JSON value (`NaN` does not arise: numbers
are integral). -/
def jsTruthy : Json → Bool
  | .null => false
  | .bool b => b
  | .num n => n != 0
  | .str s => s != ""
  | .arr _ => true
  | .obj _ => true

/-- Models `x || null`: keep a (present) value only if truthy. -/
def truthyOr (o : Option Json) : Option Json :=
  match o with
  | some j => if jsTruthy j then some j else none
  | none => none

/-- Property access `o.k` on an arbitrary value: objects look the key up,
everything else yields `undefined`.  (Array index access is modelled
separately in `jsIndex`.) -/
def jsField (v : Json) (k : String) : Option Json :=
  match v with
  | .obj fields => lookupJ fields k
  | _ => none

/-! ### JavaScript string order

`jsLtB` is lexicographic comparison of the character data by code point,
which is how both JS (`<` on strings, the default `Array.prototype.sort`
comparator) and SQLite (`ORDER BY` on TEXT) compare the identifier
strings appearing in this system (for basic-plane characters the UTF-16
code-unit order used by JS coincides with code-point order). -/

def jsLtCharsB : List Char → List Char → Bool
  | [], [] => false
  | [], _ :: _ => true
  | _ :: _, [] => false
  | a :: as, b :: bs =>
      if a.toNat < b.toNat then true
      else if b.toNat < a.toNat then false
      else jsLtCharsB as bs

def jsLtB (a b : String) : Bool := jsLtCharsB a.data b.data

def jsLeB (a b : String) : Bool := !jsLtB b a

theorem charEqOfToNat {a b : Char} (h : a.toNat = b.toNat) : a = b := by
  have hv : a.val = b.val := by
    have h2 : a.val.toNat = b.val.toNat := h
    exact UInt32.eq_of_toBitVec_eq (BitVec.toNat_injective (by simpa [UInt32.toNat] using h2))
  exact Char.eq_of_val_eq hv

theorem strEqOfData {a b : String} (h : a.data = b.data) : a = b := by
  cases a with
  | mk d1 => cases b with
    | mk d2 => cases h; rfl

theorem jsLtCharsB_asymm : ∀ a b : List Char, jsLtCharsB a b = true → jsLtCharsB b a = false
  | [], [], h => by simp [jsLtCharsB] at h
  | [], _ :: _, _ => by simp [jsLtCharsB]
  | _ :: _, [], h => by simp [jsLtCharsB] at h
  | a :: as, b :: bs, h => by
      simp only [jsLtCharsB] at h ⊢
      by_cases h1 : a.toNat < b.toNat
      · have h1' : ¬ b.toNat < a.toNat := by omega
        simp [h1, h1']
      · by_cases h2 : b.toNat < a.toNat
        · simp [h1, h2] at h
        · simp [h1, h2] at h ⊢
          exact jsLtCharsB_asymm as bs h

/-- Head-to-head comparability: a strict comparison against `a` passes
through any third list `b`. -/
theorem jsLtCharsB_split : ∀ a b c : List Char, jsLtCharsB c a = true →
    jsLtCharsB c b = true ∨ jsLtCharsB b a = true
  | [], _, c, h => by cases c <;> simp [jsLtCharsB] at h
  | _ :: _, [], _ :: _, _ => Or.inr (by simp [jsLtCharsB])
  | _ :: _, _ :: _, [], _ => Or.inl (by simp [jsLtCharsB])
  | x :: xs, [], [], h => Or.inr (by simp [jsLtCharsB])
  | x :: xs, y :: ys, z :: zs, h => by
      simp only [jsLtCharsB] at h ⊢
      by_cases hzy : z.toNat < y.toNat
      · exact Or.inl (by simp [hzy])
      · by_cases hzx : z.toNat < x.toNat
        · have hyx : y.toNat < x.toNat := by omega
          exact Or.inr (by simp [hyx])
        · by_cases hxz : x.toNat < z.toNat
          · simp [hzx, hxz] at h
          · have hxzeq : z.toNat = x.toNat := by omega
            simp [hzx, hxz, hxzeq] at h
            by_cases hyz : y.toNat < z.toNat
            · have hyx : y.toNat < x.toNat := by omega
              exact Or.inr (by simp [hyx])
            · have hzyeq : z.toNat = y.toNat := by omega
              rcases jsLtCharsB_split xs ys zs h with h' | h'
              · exact Or.inl (by simp [hzy, hyz, hzyeq, h'])
              · have hyxeq : y.toNat = x.toNat := by omega
                exact Or.inr (by
                  have : ¬ y.toNat < x.toNat := by omega
                  have : ¬ x.toNat < y.toNat := by omega
                  simp_all)

theorem jsLtCharsB_conn : ∀ a b : List Char,
    jsLtCharsB a b = false → jsLtCharsB b a = false → a = b
  | [], [], _, _ => rfl
  | [], _ :: _, h1, _ => by simp [jsLtCharsB] at h1
  | _ :: _, [], _, h2 => by simp [jsLtCharsB] at h2
  | a :: as, b :: bs, h1, h2 => by
      simp only [jsLtCharsB] at h1 h2
      by_cases hab : a.toNat < b.toNat
      · simp [hab] at h1
      · by_cases hba : b.toNat < a.toNat
        · simp [hba, hab] at h2
        · have hv : a = b := charEqOfToNat (by omega)
          simp [hab, hba] at h1 h2
          rw [hv, jsLtCharsB_conn as bs h1 h2]

/-- The (propositional) order used for `ORDER BY id ASC` and for sorting
configured index lists. -/
def jsStrLe (a b : String) : Prop := jsLeB a b = true

instance : DecidableRel jsStrLe := fun a b => by
  unfold jsStrLe; infer_instance

instance : IsTotal String jsStrLe :=
  ⟨fun a b => by
    unfold jsStrLe jsLeB jsLtB
    rcases h : jsLtCharsB a.data b.data with _ | _
    · right; simp [h]
    · left; simp [jsLtCharsB_asymm _ _ h]⟩

instance : IsTrans String jsStrLe :=
  ⟨fun a b c hab hbc => by
    unfold jsStrLe jsLeB jsLtB at hab hbc ⊢
    simp only [Bool.not_eq_true'] at hab hbc ⊢
    rcases h : jsLtCharsB c.data a.data with _ | _
    · rfl
    · rcases jsLtCharsB_split a.data b.data c.data h with h' | h'
      · rw [h'] at hbc; exact hbc
      · rw [h'] at hab; exact hab⟩

instance : IsAntisymm String jsStrLe :=
  ⟨fun a b hab hba => by
    unfold jsStrLe jsLeB jsLtB at hab hba
    simp only [Bool.not_eq_true'] at hab hba
    exact strEqOfData (jsLtCharsB_conn a.data b.data hba hab)⟩

/-- Models `Array.prototype.sort()` on a list of strings (a stable sort by the
code-unit order); used by `ensureSchema` to normalize the index list. -/
def sortJS (l : List String) : List String := l.insertionSort jsStrLe

theorem sortJS_eq_iff_perm (a b : List String) : sortJS a = sortJS b ↔ a.Perm b := by
  constructor
  · intro h
    have h1 : a.Perm (sortJS a) := (List.perm_insertionSort jsStrLe a).symm
    have h2 : (sortJS b).Perm b := List.perm_insertionSort jsStrLe b
    exact (h ▸ h1).trans h2
  · intro h
    exact List.eq_of_perm_of_sorted
      ((List.perm_insertionSort jsStrLe a).trans (h.trans (List.perm_insertionSort jsStrLe b).symm))
      (List.sorted_insertionSort jsStrLe a) (List.sorted_insertionSort jsStrLe b)

/-! ### String helpers (structural models of the JS string operations) -/

/-- Models `sep.join(l)` with all elements already strings. -/
def strJoin (sep : String) : List String → String
  | [] => ""
  | [s] => s
  | s :: rest => s ++ sep ++ strJoin sep rest

/-- Models `String.prototype.split(sep)` for a single-character separator, on
character data (`"".split(".") = [""]`, as in JS). -/
def splitChar (sep : Char) : List Char → List (List Char)
  | [] => [[]]
  | c :: rest =>
      if c = sep then [] :: splitChar sep rest
      else
        match splitChar sep rest with
        | [] => [[c]]
        | g :: gs => (c :: g) :: gs

/-- Models `p.startsWith(q)` (also SQLite has no role here; structural model of
`String.prototype.startsWith`). -/
def strBegins (p q : String) : Bool := q.data.isPrefixOf p.data

/-- Models `s.substring(0, n)` / `s.slice(0, n)` (modelled on code points; the
JS originals count UTF-16 units, which agree on basic-plane text). -/
def strTake (s : String) (n : Nat) : String := ⟨s.data.take n⟩

/-- Models `s.substring(n)` (drop the first `n` units). -/
def strDrop (s : String) (n : Nat) : String := ⟨s.data.drop n⟩

/-- Whether `needle` occurs as a contiguous segment of `hay`. -/
def segIn (hay needle : List Char) : Bool :=
  match hay with
  | [] => needle.isEmpty
  | _ :: t => needle.isPrefixOf hay || segIn t needle

/-- ASCII lower-casing of one character (SQLite's `LIKE` folds only
ASCII letters). -/
def asciiLower (c : Char) : Char :=
  if 'A' ≤ c ∧ c ≤ 'Z' then Char.ofNat (c.toNat + 32) else c

/-- SQLite `col LIKE '%' || pat || '%'`: ASCII-case-insensitive substring
containment (wildcard characters inside `pat` are not modelled; no claim
exercises them). -/
def sqlLikeContains (s pat : String) : Bool :=
  segIn (s.data.map asciiLower) (pat.data.map asciiLower)

/-! ### ColumnMapper (`colName`, identical in both handler files)

`const colName = (p) => "k_" + p.replace(/[^a-zA-Z0-9]+/g, "_").slice(0, 48);`
-/

def isAlnum (c : Char) : Bool :=
  ('a' ≤ c && c ≤ 'z') || ('A' ≤ c && c ≤ 'Z') || ('0' ≤ c && c ≤ '9')

/-- Models `p.replace(/[^a-zA-Z0-9]+/g, "_")` on character data: every maximal
run of non-alphanumeric characters becomes a single underscore.  The
`inRun` flag records whether the previous character was part of such a
run (so the run contributes only one underscore). -/
def squashRunsGo : Bool → List Char → List Char
  | _, [] => []
  | inRun, c :: rest =>
      if isAlnum c then c :: squashRunsGo false rest
      else if inRun then squashRunsGo true rest
      else '_' :: squashRunsGo true rest

def squashRuns (l : List Char) : List Char := squashRunsGo false l

/-- Safe column label: `"a.b.c"` becomes `"k_a_b_c"`. -/
def colName (p : String) : String := "k_" ++ ⟨(squashRuns p.data).take 48⟩

/-! ### IndexPlanner (`ensureSchema` rebuild decision)

Both `ensureSchema` implementations persist
`JSON.stringify((cfg.indexes ?? []).sort())` under the meta key
`'indexes'` and rebuild (DROP both tables) whenever the stored string
differs from the current one.  `JSON.stringify` is injective on lists of
strings, so the persisted value is modelled as the sorted list itself
and the string comparison as list equality. -/

/-- Models `storedIndexes !== currentIndexes` — `none` models a `NULL` meta row
(first initialization). -/
def needsRebuild (stored : Option (List String)) (cfgIndexes : List String) : Bool :=
  stored != some (sortJS cfgIndexes)

/-! ### PathExtractor (`getPath` and `extractOutputValues`) -/

/-- Models `o[k]` for the composite values reachable inside a parsed JSON
document: objects look up the property; arrays support canonical
numeric indices and `length` (as in JS). -/
def jsIndex (v : Json) (k : String) : Option Json :=
  match v with
  | .obj fields => lookupJ fields k
  | .arr xs =>
      if k = "length" then some (.num xs.length)
      else
        match k.toNat? with
        | some n => if toString n = k then xs.get? n else none
        | none => none
  | _ => none

/-- One step of `getPath`'s reduce:
`(o, k) => (o && typeof o === "object" ? o[k] : undefined)`.
`null` is typeof `"object"` but falsy, so only objects and arrays are
entered. -/
def getPathStep (o : Option Json) (k : String) : Option Json :=
  match o with
  | some (.obj fields) => lookupJ fields k
  | some (.arr xs) => jsIndex (.arr xs) k
  | _ => none

/-- Models `getPath(obj, path)`: split on dots, then reduce. -/
def getPathJ (doc : Json) (path : String) : Option Json :=
  ((splitChar '.' path.data).map (fun g => (⟨g⟩ : String))).foldl getPathStep (some doc)

/-- Models `v == null` (loose equality): matches both `null` and `undefined`. -/
def isNullish (o : Option Json) : Bool :=
  match o with
  | none => true
  | some .null => true
  | some _ => false

mutual

/-- Models `String(v)` coercion of a defined JSON value. -/
def jsString : Json → String
  | .null => "null"
  | .bool true => "true"
  | .bool false => "false"
  | .num n => toString n
  | .str s => s
  | .arr xs => strJoin "," (jsStringElems xs)
  | .obj _ => "[object Object]"

/-- Elementwise coercion used by `Array.prototype.toString` (null slots
become empty strings). -/
def jsStringElems : List Json → List String
  | [] => []
  | .null :: rest => "" :: jsStringElems rest
  | j :: rest => jsString j :: jsStringElems rest

end

/-! ### The zod validators

`ZodType` is the range of the validator combinators this code base
builds: `jsonSchemaToZod` in `store.ts` produces plain (stripping)
objects, strings, enums, numbers, booleans, arrays, null, unions and
`z.any()`; `createResponsesZodSchema` in `responsesStore.ts`
additionally uses `z.literal`, `.nullable()`, `.catchall(z.any())` and
`z.record(z.string(), z.any())`.  `zparse` is zod's `safeParse` for
these combinators: issues are aggregated across object properties and
array elements, unknown keys are stripped (kept verbatim under
`.catchall(z.any())`), and output objects carry the shape's keys in
shape order. -/

deriving instance DecidableEq for Except

/-- One element of a zod issue path (`(string | number)[]`). -/
inductive PathElem where
  | key (k : String)
  | idx (i : Nat)
deriving DecidableEq

/-- One entry of `result.error.issues`. -/
structure Issue where
  path : List PathElem
  message : String
deriving DecidableEq

/-- A compiled zod validator.  In `zobj`, each shape entry is
`(key, inner validator, optional?)`; `catchall` records a
`.catchall(z.any())` suffix (unknown keys preserved instead of
stripped). -/
inductive ZodType where
  | zobj (shape : List (String × ZodType × Bool)) (catchall : Bool)
  | zstr
  | zliteral (value : Json)
  | zenum (vals : List Json)
  | znum
  | zbool
  | znull
  | znullable (t : ZodType)
  | zarr (elem : ZodType)
  | zunion (variants : List ZodType)
  | zrecordAny
  | zany

/-- Element loop of `z.array(...)`: parse every element at its index
with the element validator, aggregating the issues. -/
def zparseItems (f : List PathElem → Json → Except (List Issue) Json)
    (p : List PathElem) : List Json → Nat → List Json × List Issue
  | [], _ => ([], [])
  | x :: xs, i =>
      let res := zparseItems f p xs (i + 1)
      match f (p ++ [.idx i]) x with
      | .ok out => (out :: res.1, res.2)
      | .error iss2 => (res.1, iss2 ++ res.2)

mutual

/-- zod `safeParse` at a path: `.ok` carries the parsed (stripped)
output, `.error` the aggregated issue list. -/
def zparse : ZodType → List PathElem → Json → Except (List Issue) Json
  | .zany => fun _ v => .ok v
  | .zstr => fun p v =>
      match v with
      | .str s => .ok (.str s)
      | _ => .error [⟨p, "Expected string"⟩]
  | .zliteral lit => fun p v =>
      if v = lit then .ok v else .error [⟨p, "Invalid literal value"⟩]
  | .zenum vals => fun p v =>
      match v with
      | .str s =>
          if (Json.str s) ∈ vals then .ok (.str s) else .error [⟨p, "Invalid enum value"⟩]
      | _ => .error [⟨p, "Expected string enum value"⟩]
  | .znum => fun p v =>
      match v with
      | .num n => .ok (.num n)
      | _ => .error [⟨p, "Expected number"⟩]
  | .zbool => fun p v =>
      match v with
      | .bool b => .ok (.bool b)
      | _ => .error [⟨p, "Expected boolean"⟩]
  | .znull => fun p v =>
      match v with
      | .null => .ok .null
      | _ => .error [⟨p, "Expected null"⟩]
  | .znullable t => fun p v =>
      match v with
      | .null => .ok .null
      | _ => zparse t p v
  | .zarr t => fun p v =>
      match v with
      | .arr xs =>
          let res := zparseItems (zparse t) p xs 0
          if res.2.isEmpty then .ok (.arr res.1) else .error res.2
      | _ => .error [⟨p, "Expected array"⟩]
  | .zunion vs => fun p v =>
      match zparseUnion vs p v with
      | some out => .ok out
      | none => .error [⟨p, "Invalid input"⟩]
  | .zrecordAny => fun p v =>
      match v with
      | .obj fields => .ok (.obj fields)
      | _ => .error [⟨p, "Expected object"⟩]
  | .zobj shape catchall => fun p v =>
      match v with
      | .obj fields =>
          let res := zparseShape shape p fields
          if res.2.isEmpty then
            .ok (.obj (res.1 ++
              (if catchall then
                fields.filter (fun kv => !(shape.any (fun e => e.1 == kv.1)))
              else [])))
          else .error res.2
      | _ => .error [⟨p, "Expected object"⟩]

/-- Parse an object's declared shape against its property list, in shape
order; returns the parsed pairs and the aggregated issues. -/
def zparseShape : List (String × ZodType × Bool) → List PathElem → List (String × Json) →
    List (String × Json) × List Issue
  | [] => fun _ _ => ([], [])
  | (k, t, opt) :: rest => fun p fields =>
      let res := zparseShape rest p fields
      match lookupJ fields k with
      | none =>
          if opt then res
          else (res.1, ⟨p ++ [.key k], "Required"⟩ :: res.2)
      | some v =>
          match zparse t (p ++ [.key k]) v with
      | .ok out => ((k, out) :: res.1, res.2)
      | .error iss2 => (res.1, iss2 ++ res.2)

/-- Try union variants left to right; `some` is the first success. -/
def zparseUnion : List ZodType → List PathElem → Json → Option Json
  | [] => fun _ _ => none
  | t :: ts => fun p v =>
      match zparse t p v with
      | .ok out => some out
      | .error _ => zparseUnion ts p v

end

/-- Renders `` `${e.path.join('.')}: ${e.message}` `` (both handlers render
issues this way). -/
def pathElemStr : PathElem → String
  | .key k => k
  | .idx i => toString i

def renderIssue (i : Issue) : String :=
  strJoin "." (i.path.map pathElemStr) ++ ": " ++ i.message

/-- No duplicates in a key list (JS object property lists satisfy
this). -/
def keysNodupB : List String → Bool
  | [] => true
  | k :: ks => !(ks.contains k) && keysNodupB ks

mutual

/-- Well-formedness of a validator: every object shape binds each key at
most once.  Validators arising from JS `Object.entries` always satisfy
this. -/
def ZodType.wfB : ZodType → Bool
  | .zobj shape _ => keysNodupB (shape.map (fun e => e.1)) && wfShapeB shape
  | .znullable t => t.wfB
  | .zarr t => t.wfB
  | .zunion vs => wfListB vs
  | _ => true

def wfShapeB : List (String × ZodType × Bool) → Bool
  | [] => true
  | (_, t, _) :: rest => t.wfB && wfShapeB rest

def wfListB : List ZodType → Bool
  | [] => true
  | t :: ts => t.wfB && wfListB ts

end

/-! ### `jsonSchemaToZod` (store.ts lines 39-74)

The compiler takes the configured JSON-Schema description (itself a JSON
value) and produces the validator.  Unexercised JavaScript edge cases —
a `null` schema (property access throws), a truthy non-array `required`
or `enum` or `oneOf`/`anyOf` — are modelled by their nearest
non-throwing behavior and never reached by any theorem below. -/

/-- Models `schema.properties || {}`, as an entry list. -/
def schemaProps (flds : List (String × Json)) : List (String × Json) :=
  match lookupJ flds "properties" with
  | some (.obj ps) => ps
  | _ => []

/-- Models `schema.required || []`, as a value list (`required.includes(key)`
below is membership). -/
def schemaRequired (flds : List (String × Json)) : List Json :=
  match lookupJ flds "required" with
  | some (.arr rs) => rs
  | _ => []

/-- Models `schema.items || {}`. -/
def schemaItems (flds : List (String × Json)) : Json :=
  match lookupJ flds "items" with
  | some it => if jsTruthy it then it else .obj []
  | none => .obj []

/-- Models `schema.oneOf || schema.anyOf`, when it is a (truthy) array. -/
def schemaVariants (flds : List (String × Json)) : Option (List Json) :=
  match truthyOr (lookupJ flds "oneOf") with
  | some (.arr vs) => some vs
  | some _ => none
  | none =>
      match truthyOr (lookupJ flds "anyOf") with
      | some (.arr vs) => some vs
      | _ => none

theorem sizeOf_lookupJ : ∀ (flds : List (String × Json)) (k : String) (v : Json),
    lookupJ flds k = some v → sizeOf v < sizeOf flds
  | [], _, _, h => by simp [lookupJ] at h
  | (k', v') :: rest, k, v, h => by
      simp only [lookupJ] at h
      by_cases hk : k' = k
      · simp [hk] at h
        subst h
        simp
        omega
      · simp [hk] at h
        have := sizeOf_lookupJ rest k v h
        simp
        omega

theorem sizeOf_lookupJ_pos {flds : List (String × Json)} {k : String} {v : Json}
    (h : lookupJ flds k = some v) : 2 < sizeOf flds := by
  cases flds with
  | nil => simp [lookupJ] at h
  | cons e rest =>
      cases e with
      | mk k' v' =>
          have h1 : 0 < sizeOf k' := by cases k'; simp
          have h2 : 0 < sizeOf v' := by cases v' <;> simp
          simp
          omega

theorem sizeOf_schemaProps (flds : List (String × Json)) :
    sizeOf (schemaProps flds) < 1 + sizeOf flds := by
  unfold schemaProps
  rcases hl : lookupJ flds "properties" with _ | v
  · have : 0 < sizeOf flds := by cases flds <;> simp <;> omega
    simp
    omega
  · have hv := sizeOf_lookupJ flds "properties" _ hl
    cases v <;> simp at hv ⊢ <;> try omega

theorem sizeOf_schemaItems {flds : List (String × Json)} {tv : Json}
    (h : lookupJ flds "type" = some tv) : sizeOf (schemaItems flds) < 1 + sizeOf flds := by
  have hp := sizeOf_lookupJ_pos h
  unfold schemaItems
  rcases hl : lookupJ flds "items" with _ | it
  · simp; omega
  · have hv := sizeOf_lookupJ flds "items" _ hl
    by_cases ht : jsTruthy it = true
    · simp [ht]; omega
    · simp [ht]; omega

theorem truthyOr_lookup {flds : List (String × Json)} {k : String} {w : Json}
    (h : truthyOr (lookupJ flds k) = some w) : lookupJ flds k = some w := by
  unfold truthyOr at h
  rcases h3 : lookupJ flds k with _ | w3
  · rw [h3] at h; simp at h
  · rw [h3] at h
    by_cases ht : jsTruthy w3 = true
    · simp [ht] at h
      cases h
      rfl
    · simp [ht] at h

theorem sizeOf_schemaVariants {flds : List (String × Json)} {vs : List Json}
    (hvs : schemaVariants flds = some vs) : sizeOf vs < 1 + sizeOf flds := by
  unfold schemaVariants at hvs
  rcases h1 : truthyOr (lookupJ flds "oneOf") with _ | w
  · rw [h1] at hvs
    rcases h2 : truthyOr (lookupJ flds "anyOf") with _ | w2
    · rw [h2] at hvs; simp at hvs
    · rw [h2] at hvs
      cases w2 <;> simp at hvs
      case arr vs2 =>
        subst hvs
        have := sizeOf_lookupJ flds "anyOf" _ (truthyOr_lookup h2)
        simp at this
        omega
  · rw [h1] at hvs
    cases w <;> simp at hvs
    case arr vs1 =>
      subst hvs
      have := sizeOf_lookupJ flds "oneOf" _ (truthyOr_lookup h1)
      simp at this
      omega

mutual

/-- Models `jsonSchemaToZod(schema)` from `store.ts`: dispatch on
`schema.type`, falling back to `z.any()`. -/
def jsonSchemaToZod (s : Json) : ZodType :=
  match s with
  | .obj flds =>
      if lookupJ flds "type" = some (.str "object") then
        .zobj (shapeFromProps (schemaProps flds) (schemaRequired flds)) false
      else if lookupJ flds "type" = some (.str "string") then
        match truthyOr (lookupJ flds "enum") with
        | some (.arr vs) => .zenum vs
        | _ => .zstr
      else if lookupJ flds "type" = some (.str "number") ∨
              lookupJ flds "type" = some (.str "integer") then
        .znum
      else if lookupJ flds "type" = some (.str "boolean") then
        .zbool
      else if h : lookupJ flds "type" = some (.str "array") then
        .zarr (jsonSchemaToZod (schemaItems flds))
      else if lookupJ flds "type" = some (.str "null") then
        .znull
      else
        match hv : schemaVariants flds with
        | some vs => .zunion (variantsFrom vs)
        | none => .zany
  | _ => .zany
termination_by sizeOf s
decreasing_by
  · have := sizeOf_schemaProps ‹List (String × Json)›
    simp
    omega
  · have := sizeOf_schemaItems h
    simp
    omega
  · have := sizeOf_schemaVariants hv
    simp
    omega

/-- Build an object shape from `Object.entries(properties)`: a key is
optional when `!required.includes(key)`. -/
def shapeFromProps : List (String × Json) → List Json → List (String × ZodType × Bool)
  | [], _ => []
  | (k, psch) :: rest, req =>
      (k, jsonSchemaToZod psch, !(req.contains (.str k))) :: shapeFromProps rest req
termination_by props _ => sizeOf props
decreasing_by
  · simp
    omega
  · simp

def variantsFrom : List Json → List ZodType
  | [] => []
  | v :: vs => jsonSchemaToZod v :: variantsFrom vs
termination_by vs => sizeOf vs
decreasing_by
  · simp
    omega
  · simp

end

/-- Models `createResponsesZodSchema()` from `responsesStore.ts` lines 39-103:
the fixed validator for OpenAI Response API documents. -/
def outputItemSchema : ZodType :=
  .zobj [
    ("type", .zstr, true),
    ("id", .zstr, true),
    ("status", .zstr, true),
    ("role", .zenum [.str "assistant", .str "user", .str "system", .str "function"], true),
    ("content", .zunion [.zstr,
        .zarr (.zobj [
          ("type", .zstr, true),
          ("text", .zstr, true),
          ("annotations", .zarr .zany, true)] true)], true),
    ("text", .zstr, true),
    ("function_call", .zany, true),
    ("tool_calls", .zarr .zany, true)] true

def responsesZodSchema : ZodType :=
  .zobj [
    ("id", .zstr, false),
    ("object", .zliteral (.str "response"), false),
    ("created_at", .znum, false),
    ("status", .zenum [.str "completed", .str "incomplete", .str "failed"], false),
    ("error", .znullable .zany, true),
    ("incomplete_details", .znullable .zany, true),
    ("instructions", .znullable .zstr, true),
    ("max_output_tokens", .znullable .znum, true),
    ("model", .zstr, false),
    ("output", .zarr outputItemSchema, false),
    ("parallel_tool_calls", .zbool, true),
    ("previous_response_id", .znullable .zstr, true),
    ("reasoning", .zobj [
        ("effort", .znullable .zstr, true),
        ("summary", .znullable .zstr, true)] false, true),
    ("store", .zbool, true),
    ("temperature", .znum, true),
    ("text", .zobj [
        ("format", .zobj [("type", .zenum [.str "text", .str "json"], true)] false, true)]
        false, true),
    ("tool_choice", .zunion [.zenum [.str "auto", .str "none"], .zobj [] true], true),
    ("tools", .zarr .zany, true),
    ("top_p", .znum, true),
    ("truncation", .zenum [.str "enabled", .str "disabled"], true),
    ("usage", .zobj [
        ("input_tokens", .znum, true),
        ("input_tokens_details", .zobj [("cached_tokens", .znum, true)] false, true),
        ("output_tokens", .znum, true),
        ("output_tokens_details", .zobj [("reasoning_tokens", .znum, true)] false, true),
        ("total_tokens", .znum, true)] false, true),
    ("user", .znullable .zstr, true),
    ("metadata", .zrecordAny, true)] true

/-- Models `extractOutputValues(doc, path)` (identical in both handler files):
for `output.`-rooted paths, one stringified value per array element that
has the sub-path non-nullish; otherwise at most one value via
`getPath`. -/
def extractOutputValues (doc : Json) (path : String) : List String :=
  if strBegins path "output." then
    match jsField doc "output" with
    | some (.arr outputArray) =>
        let subPath := strDrop path 7
        outputArray.filterMap (fun el =>
          match getPathJ el subPath with
          | some v => if v = .null then none else some (jsString v)
          | none => none)
    | _ => []
  else
    match getPathJ doc path with
    | some v => if v = .null then [] else [jsString v]
    | none => []

/-! ### DocumentIngestor / QueryTranslator / Pager for `store.ts`

The `items` and `output_index` tables are explicit list states; `POST
items`, `GET items` and `GET items/{itemId}` become pure functions.  The
internal id (`crypto.randomUUID()`) and the timestamp
(`Math.floor(Date.now()/1000)`) are nondeterministic inputs of the
request, so the model takes them as arguments. -/

/-- A row of the `items` table.  `kvals` are the configured `k_...`
columns in insertion order (`id`, `ts`, `schema_version`, `body` are the
fixed columns). -/
structure ItemRow where
  id : String
  ts : Int
  schemaVersion : String
  body : Json
  kvals : List (String × Option String)
deriving DecidableEq

/-- A row of the `output_index` table.  Values bound from JS expressions
like `outputItem.type || null` keep their JSON type. -/
structure OutputRow where
  itemId : String
  outputIdx : Nat
  outputType : Option Json
  outputRole : Option Json
  outputContent : Option Json
deriving DecidableEq

structure ItemsDb where
  items : List ItemRow
  outputIndex : List OutputRow
deriving DecidableEq

/-- Store-cell configuration (`StoreActorConfig`): the index paths and
the JSON-Schema description compiled by `jsonSchemaToZod`. -/
structure StoreCfg where
  indexes : List String
  schema : Json

/-- The modelled HTTP responses of both handlers. -/
inductive StoreResponse where
  | ok200 (body : Json)
  | err400 (error : String) (details : List String)
  | err404
  | err500
deriving DecidableEq

/-- JS-object upsert `values[c] = x`: an existing key keeps its
position, a new key is appended. -/
def recordSet (m : List (String × Option String)) (k : String) (v : Option String) :
    List (String × Option String) :=
  if m.any (fun kv => kv.1 == k) then
    m.map (fun kv => if kv.1 == k then (k, v) else kv)
  else m ++ [(k, v)]

/-- The value the ingest loop computes for one index path:
`output.`-rooted paths get the pipe-joined extracted values (or `null`
when no element yields one), other paths the stringified `getPath`
value (or `null` when nullish). -/
def indexValueOf (doc : Json) (p : String) : Option String :=
  if strBegins p "output." then
    let extracted := extractOutputValues doc p
    if extracted.length > 0 then some (strJoin "|" extracted) else none
  else
    match getPathJ doc p with
    | some v => if v = .null then none else some (jsString v)
    | none => none

/-- The `for (const p of cfg.indexes ?? [])` loop with accumulator
`m`. -/
def indexValuesGo (doc : Json) (m : List (String × Option String)) :
    List String → List (String × Option String)
  | [] => m
  | p :: rest => indexValuesGo doc (recordSet m (colName p) (indexValueOf doc p)) rest

/-- The `values` record built by `POST items` (and identically by `POST
responses`). -/
def indexValues (indexes : List String) (doc : Json) : List (String × Option String) :=
  indexValuesGo doc [] indexes

/-- Content extraction for one output element (`store.ts` lines
234-249 and `responsesStore.ts` lines 320-337): a string `content` is
taken verbatim, an array `content` has its `text`/`output_text` parts'
`text` fields joined with a space, otherwise a truthy `text` field is
taken raw. -/
def contentFromParts (parts : List Json) : String :=
  strJoin " "
    (((parts.filter (fun it =>
        jsField it "type" = some (.str "text") ∨ jsField it "type" = some (.str "output_text")))
      |>.filterMap (fun it => jsField it "text")
      |>.filter jsTruthy)
      |>.map jsString)

def rawContent (item : Json) : Option Json :=
  match truthyOr (jsField item "content") with
  | some (.str s) => some (.str s)
  | some (.arr parts) => some (.str (contentFromParts parts))
  | some _ => none
  | none => truthyOr (jsField item "text")

/-- Models `if (outputContent && outputContent.length > max) outputContent =
outputContent.substring(0, max)`; non-string content has no `.length`
and is stored untruncated. -/
def capContent (maxLen : Nat) (c : Option Json) : Option Json :=
  match c with
  | some (.str s) => if s.length > maxLen then some (.str (strTake s maxLen)) else some (.str s)
  | other => other

/-- One `output_index` row built by `POST items` for element `i`. -/
def itemChildRow (id : String) (i : Nat) (item : Json) : OutputRow :=
  { itemId := id
    outputIdx := i
    outputType := truthyOr (jsField item "type")
    outputRole := truthyOr (jsField item "role")
    outputContent := capContent 1000 (rawContent item) }

/-- The `for (let i = 0; ...)` loop over the output array. -/
def itemChildRows (id : String) : Nat → List Json → List OutputRow
  | _, [] => []
  | i, x :: xs => itemChildRow id i x :: itemChildRows id (i + 1) xs

/-- Models `POST items` (`store.ts` lines 192-263) with the factory-compiled
validator (`storeHandlerFactory` computes `zodSchema =
jsonSchemaToZod(cfg.schema)` once): validate, insert the item row, then
one `output_index` row per element of a present `output` array. -/
def postItemsZ (indexes : List String) (zodSchema : ZodType) (db : ItemsDb) (doc : Json)
    (newId : String) (ts : Int) : ItemsDb × StoreResponse :=
  match zparse zodSchema [] doc with
  | .error issues => (db, .err400 "invalid_document" (issues.map renderIssue))
  | .ok validated =>
      let row : ItemRow :=
        { id := newId, ts := ts, schemaVersion := "v1", body := validated
          kvals := indexValues indexes validated }
      let db1 : ItemsDb := { db with items := db.items ++ [row] }
      let db2 : ItemsDb :=
        match jsField validated "output" with
        | some (.arr xs) =>
            { db1 with outputIndex := db1.outputIndex ++ itemChildRows newId 0 xs }
        | _ => db1
      (db2, .ok200 (.obj [("id", .str newId), ("ts", .num ts)]))

/-- Models `POST items` for a configured cell. -/
def postItems (cfg : StoreCfg) (db : ItemsDb) (doc : Json) (newId : String) (ts : Int) :
    ItemsDb × StoreResponse :=
  postItemsZ cfg.indexes (jsonSchemaToZod cfg.schema) db doc newId ts

/-- Models `GET items/{itemId}` (`store.ts` lines 267-273). -/
def getItemById (db : ItemsDb) (itemId : String) : StoreResponse :=
  match db.items.find? (fun r => r.id == itemId) with
  | some r => .ok200 (.obj [("id", .str r.id), ("ts", .num r.ts),
      ("schema_version", .str r.schemaVersion), ("body", r.body)])
  | none => .err404

/-- The recognized query parameters of `GET items`.  `limit` is the
successfully parsed `limit` parameter (absent means the default `"50"`);
`kFilters` are the entries whose key starts with `k_`; the remaining
fields are `searchParams.get(...)` results (`none` = absent, `some ""`
possible and falsy). -/
structure ItemsQueryParams where
  limit : Option Nat
  after : Option String
  kFilters : List (String × String)
  outputType : Option String
  outputRole : Option String
  outputContent : Option String
deriving DecidableEq

/-- JS truthiness of a `searchParams.get` result. -/
def truthyParam (o : Option String) : Bool :=
  match o with
  | some s => s != ""
  | none => false

/-- The translated query of `GET items`: whether the `output_index` join
is emitted, the retained filters, and the effective `LIMIT`. -/
structure ItemsQuery where
  hasJoin : Bool
  outputType : Option String
  outputRole : Option String
  outputContent : Option String
  after : Option String
  kFilters : List (String × String)
  limit : Nat
deriving DecidableEq

/-- Query translation (`store.ts` lines 150-181): array filters are
added only when truthy, `after` only when truthy, every `k_` filter
unconditionally; `limit` is `Math.min(parseInt(limit || "50"), 200)`. -/
def buildItemsQuery (p : ItemsQueryParams) : ItemsQuery :=
  { hasJoin := truthyParam p.outputType || truthyParam p.outputRole ||
      truthyParam p.outputContent
    outputType := if truthyParam p.outputType then p.outputType else none
    outputRole := if truthyParam p.outputRole then p.outputRole else none
    outputContent := if truthyParam p.outputContent then p.outputContent else none
    after := if truthyParam p.after then p.after else none
    kFilters := p.kFilters
    limit := min (p.limit.getD 50) 200 }

/-- SQL predicate on the `items` columns: `items.id > ?` (byte order)
and `items.k_x = ?` (a `NULL` column never equals a text parameter; a
filter naming a column the configuration does not define would be a
SQLite error and is modelled as no match). -/
def rowMatchesItems (q : ItemsQuery) (r : ItemRow) : Bool :=
  (match q.after with
   | some a => jsLtB a r.id
   | none => true) &&
  q.kFilters.all (fun kv =>
    match lookupJ (r.kvals.map (fun e => (e.1, match e.2 with
      | some s => Json.str s
      | none => Json.null))) kv.1 with
    | some (.str s) => s == kv.2
    | _ => false)

/-- SQL predicate on the joined `output_index` columns: equality against
text parameters and `LIKE '%..%'` containment (SQLite `LIKE` is
ASCII-case-insensitive). -/
def rowMatchesOutput (q : ItemsQuery) (oi : OutputRow) : Bool :=
  (match q.outputType with
   | some t => oi.outputType == some (.str t)
   | none => true) &&
  (match q.outputRole with
   | some t => oi.outputRole == some (.str t)
   | none => true) &&
  (match q.outputContent with
   | some c =>
       match oi.outputContent with
       | some (.str s) => sqlLikeContains s c
       | _ => false
   | none => true)

/-- The four selected columns of the `GET items` row set. -/
structure ProjectedItem where
  id : String
  ts : Int
  schemaVersion : String
  body : Json
deriving DecidableEq

def projectItem (r : ItemRow) : ProjectedItem :=
  { id := r.id, ts := r.ts, schemaVersion := r.schemaVersion, body := r.body }

/-- The row set of the translated query before `DISTINCT`: an inner
join with `output_index` (one copy of the selected item columns per
matching join partner) when an array filter is present, the `items`
table alone otherwise. -/
def itemsRowSet (db : ItemsDb) (q : ItemsQuery) : List ProjectedItem :=
  if q.hasJoin then
    (db.items.filter (rowMatchesItems q)).flatMap (fun it =>
      (db.outputIndex.filter (fun oi => oi.itemId == it.id && rowMatchesOutput q oi)).map
        (fun _ => projectItem it))
  else
    (db.items.filter (rowMatchesItems q)).map projectItem

/-- Models `GET items` (`store.ts` lines 149-188): `SELECT DISTINCT ... FROM
items [JOIN output_index ...] WHERE ... ORDER BY items.id ASC LIMIT ?`,
then `next_after` as the id of the last returned row (or null). -/
def runItemsList (db : ItemsDb) (p : ItemsQueryParams) :
    List ProjectedItem × Option String :=
  let q := buildItemsQuery p
  let results := ((itemsRowSet db q).dedup.insertionSort
    (fun a b => jsStrLe a.id b.id)).take q.limit
  (results, results.getLast?.map (fun r => r.id))

/-! ### DocumentIngestor for `responsesStore.ts`

`POST responses` (lines 264-370) runs inside a `try`/`catch`: a thrown
storage error is caught and answered with a 500 **without undoing the
`db.exec` calls that already ran** (each statement is applied
synchronously when issued).  The one storage error reachable in the
model is a violation of `PRIMARY KEY(response_id, output_index)` on the
`response_outputs` table, which happens whenever a response with the
same caller-supplied `id` was ingested before. -/

/-- A row of the `responses` table.  The promoted columns hold the raw
JSON values the code binds. -/
structure RespRow where
  id : String
  responseId : Json
  ts : Int
  schemaVersion : String
  status : Json
  model : Json
  createdAt : Json
  totalTokens : Option Json
  body : Json
  kvals : List (String × Option String)
deriving DecidableEq

/-- A row of the `response_outputs` table. -/
structure RespOutputRow where
  responseId : Json
  outputIdx : Nat
  outputType : Option Json
  outputRole : Option Json
  outputContent : Option Json
  outputStatus : Option Json
  contentTokens : Option Int
deriving DecidableEq

structure RespDb where
  responses : List RespRow
  responseOutputs : List RespOutputRow
deriving DecidableEq

/-- Models `ResponsesStoreActorConfig`: index paths and
`cfg.params?.max_output_content_length ?? 1000`. -/
structure RespCfg where
  indexes : List String
  maxContentLength : Nat

/-- One `response_outputs` row for element `i`:
`content_tokens = Math.ceil(content.length / 4)` is estimated from the
**untruncated** content, and only when the content is truthy (a non-
string `text` payload would make the JS arithmetic produce `NaN`; not
modelled, unexercised). -/
def respChildRow (maxLen : Nat) (rid : Json) (i : Nat) (item : Json) : RespOutputRow :=
  let raw := rawContent item
  { responseId := rid
    outputIdx := i
    outputType := truthyOr (jsField item "type")
    outputRole := truthyOr (jsField item "role")
    outputStatus := truthyOr (jsField item "status")
    outputContent := capContent maxLen raw
    contentTokens :=
      match raw with
      | some (.str s) => if s.length > 0 then some (((s.length : Int) + 3) / 4) else none
      | _ => none }

/-- The `for (let i = 0; ...)` loop over the output array. -/
def respChildRows (maxLen : Nat) (rid : Json) : Nat → List Json → List RespOutputRow
  | _, [] => []
  | i, x :: xs => respChildRow maxLen rid i x :: respChildRows maxLen rid (i + 1) xs

/-- Insert child rows one statement at a time; stop (throw) at the first
`PRIMARY KEY(response_id, output_index)` violation.  Returns the state
reached and whether all inserts succeeded. -/
def insertRespOutputs (db : RespDb) : List RespOutputRow → RespDb × Bool
  | [] => (db, true)
  | r :: rest =>
      if db.responseOutputs.any (fun e =>
          e.responseId == r.responseId && e.outputIdx == r.outputIdx) then
        (db, false)
      else
        insertRespOutputs
          { db with responseOutputs := db.responseOutputs ++ [r] } rest

/-- Models `POST responses`: `const doc = await req.json().catch(() =>
null); if (!doc) ...` answers `invalid_json` (no details) both when the
body is unparseable (`none`, the `catch` made it `null`) and when the
parsed body is any falsy value (`null`, `0`, `""`, `false`); truthy
documents failing the validator are rejected with per-path details and
nothing written; otherwise insert the `responses` row, then the child
rows; a child-insert failure is caught and answered 500 with the
already-written rows (including the new `responses` row) left in
place. -/
def postResponses (cfg : RespCfg) (db : RespDb) (doc : Option Json) (newId : String)
    (ts : Int) : RespDb × StoreResponse :=
  match doc with
  | none => (db, .err400 "invalid_json" [])
  | some d =>
    if jsTruthy d = false then (db, .err400 "invalid_json" [])
    else
    match zparse responsesZodSchema [] d with
    | .error issues => (db, .err400 "invalid_response_document" (issues.map renderIssue))
    | .ok validated =>
        let rid := (jsField validated "id").getD .null
        let row : RespRow :=
          { id := newId
            responseId := rid
            ts := ts
            schemaVersion := "v1"
            status := (jsField validated "status").getD .null
            model := (jsField validated "model").getD .null
            createdAt := (jsField validated "created_at").getD .null
            totalTokens :=
              truthyOr ((jsField validated "usage").bind (fun u => jsField u "total_tokens"))
            body := validated
            kvals := indexValues cfg.indexes validated }
        if db.responses.any (fun r => r.id == newId) then
          (db, .err500)
        else
          let db1 : RespDb := { db with responses := db.responses ++ [row] }
          match jsField validated "output" with
          | some (.arr xs) =>
              let res := insertRespOutputs db1
                (respChildRows cfg.maxContentLength rid 0 xs)
              if res.2 then
                (res.1, .ok200 (.obj [("id", .str newId), ("response_id", rid),
                  ("ts", .num ts), ("outputs_indexed", .num xs.length)]))
              else
                (res.1, .err500)
          | _ =>
              (db1, .ok200 (.obj [("id", .str newId), ("response_id", rid),
                ("ts", .num ts), ("outputs_indexed", .num 0)]))

/-- A sequence of `POST items` requests against one cell (the platform
serializes them); each triple is (document, fresh UUID, timestamp). -/
def ingestSeq (cfg : StoreCfg) (db : ItemsDb) : List (Json × String × Int) → ItemsDb
  | [] => db
  | r :: rest => ingestSeq cfg (postItems cfg db r.1 r.2.1 r.2.2).1 rest

/-! ## Concrete fixtures used by counterexamples and witnesses -/

/-- JSON Schema `{type: "object", properties: {a: {type: "string"}},
required: ["a"]}`. -/
def schemaObjA : Json := .obj [("type", .str "object"),
  ("properties", .obj [("a", .obj [("type", .str "string")])]),
  ("required", .arr [.str "a"])]

theorem jsonSchemaToZod_schemaObjA :
    jsonSchemaToZod schemaObjA = .zobj [("a", .zstr, false)] false := by
  simp [jsonSchemaToZod, schemaObjA, schemaProps, schemaRequired, schemaItems,
    schemaVariants, lookupJ, truthyOr, shapeFromProps, variantsFrom, jsTruthy]

/-- JSON Schema `{type: "object", properties: {output: {type: "array"}},
required: ["output"]}`. -/
def schemaOutArr : Json := .obj [("type", .str "object"),
  ("properties", .obj [("output", .obj [("type", .str "array")])]),
  ("required", .arr [.str "output"])]

theorem jsonSchemaToZod_schemaOutArr :
    jsonSchemaToZod schemaOutArr = .zobj [("output", .zarr .zany, false)] false := by
  simp [jsonSchemaToZod, schemaOutArr, schemaProps, schemaRequired, schemaItems,
    schemaVariants, lookupJ, truthyOr, shapeFromProps, variantsFrom, jsTruthy]

/-- A well-formed OpenAI Response document with one output element. -/
def respDocW : Json := .obj [("id", .str "r1"), ("object", .str "response"),
  ("created_at", .num 1), ("status", .str "completed"), ("model", .str "m"),
  ("output", .arr [.obj [("role", .str "assistant"), ("content", .str "hi")]])]

/-! ## C2 — document row left behind on child-insert failure

Ingesting the same response document twice gives the second request a
fresh internal UUID but the same `response_id`, so its first
`response_outputs` insert violates `PRIMARY KEY(response_id,
output_index)`; the `catch` answers 500 — and the second `responses` row
stays in the table.  The code never deletes the just-written document
record. -/

def c2run1 : RespDb × StoreResponse :=
  postResponses ⟨[], 1000⟩ ⟨[], []⟩ (some respDocW)
    "11111111-1111-4111-8111-111111111111" 100

def c2run2 : RespDb × StoreResponse :=
  postResponses ⟨[], 1000⟩ c2run1.1 (some respDocW)
    "22222222-2222-4222-8222-222222222222" 101

/-- C2: the first ingest succeeds; the second fails on the child insert
and is answered 500, yet its `responses` row (internal id `2222...`)
remains observable and no second child row exists — ingestion does
**not** delete the just-written document record on child-insert
failure. -/
theorem claim2_partial_write_eval :
    c2run1.2 = .ok200 (.obj [("id", .str "11111111-1111-4111-8111-111111111111"),
      ("response_id", .str "r1"), ("ts", .num 100), ("outputs_indexed", .num 1)]) ∧
    c2run2.2 = .err500 ∧
    c2run2.1.responses.map (fun r => r.id) =
      ["11111111-1111-4111-8111-111111111111", "22222222-2222-4222-8222-222222222222"] ∧
    c2run2.1.responseOutputs.length = 1 := by
  decide

/-! ## C3 — `next_after` -/

def dbC3 : ItemsDb := ⟨[⟨"a", 0, "v1", .null, []⟩], []⟩

def pC3 : ItemsQueryParams := ⟨some 2, none, [], none, none, none⟩

/-- C3 counterexample: with `limit` 2 only one record is returned
(fewer than `limit`), yet `next_after` is not null — the code returns
the last id whenever the page is nonempty. -/
theorem claim3_counterexample :
    (runItemsList dbC3 pC3).1.length < (buildItemsQuery pC3).limit ∧
    (runItemsList dbC3 pC3).2 ≠ none := by
  decide

/-- C3 (amended): `next_after` is null exactly when zero records are
returned, and otherwise is the id of the last returned record — even
when fewer than `limit` records are returned. -/
theorem claim3_next_after_amended (db : ItemsDb) (p : ItemsQueryParams) :
    ((runItemsList db p).2 = none ↔ (runItemsList db p).1 = []) ∧
    (∀ h : (runItemsList db p).1 ≠ [],
      (runItemsList db p).2 = some (((runItemsList db p).1.getLast h).id)) := by
  have hdef : (runItemsList db p).2 = ((runItemsList db p).1).getLast?.map (fun r => r.id) := rfl
  rw [hdef]
  constructor
  · rcases h : (runItemsList db p).1 with _ | ⟨r, rs⟩
    · simp
    · simp [List.getLast?_concat]
  · intro h
    rw [List.getLast?_eq_getLast _ h]
    rfl

/-- C3 witness: the amended rule applied to the one-record page. -/
theorem claim3_next_after_amended_witness :
    (runItemsList dbC3 pC3).2 = some (((runItemsList dbC3 pC3).1.getLast (by decide)).id) :=
  (claim3_next_after_amended dbC3 pC3).2 (by decide)

/-! ## C4 — rebuild decision -/

/-- C4 counterexample: the configuration `["a", "a"]` is a duplication
of the persisted index list `["a"]` — the same set of paths — yet the
stored-vs-current comparison (sorted, **not** deduplicated) triggers a
rebuild. -/
theorem claim4_counterexample :
    needsRebuild (some (sortJS ["a"])) ["a", "a"] = true ∧
    (∀ x : String, x ∈ (["a", "a"] : List String) ↔ x ∈ (["a"] : List String)) :=
  ⟨by decide, by intro x; simp⟩

/-- C4 (amended): no rebuild is triggered iff the configured index list
is a permutation (reordering) of the persisted one — duplicates are
significant, so a reordering triggers no rebuild but a duplication
does. -/
theorem claim4_rebuild_iff_perm (old nw : List String) :
    needsRebuild (some (sortJS old)) nw = false ↔ old.Perm nw := by
  unfold needsRebuild
  rw [bne_eq_false_iff_eq]
  constructor
  · intro h
    exact (sortJS_eq_iff_perm old nw).mp (Option.some.inj h)
  · intro h
    rw [(sortJS_eq_iff_perm old nw).mpr h]

/-! ## C10 — `colName` produces safe identifiers -/

theorem strData_append (a b : String) : (a ++ b).data = a.data ++ b.data := by
  cases a; cases b; rfl

theorem squashRunsGo_chars (l : List Char) : ∀ (b : Bool),
    ∀ c ∈ squashRunsGo b l, isAlnum c = true ∨ c = '_' := by
  induction l with
  | nil => intro b c hc; simp [squashRunsGo] at hc
  | cons x xs ih =>
      intro b c hc
      simp only [squashRunsGo] at hc
      by_cases hx : isAlnum x = true
      · rw [if_pos hx] at hc
        rcases List.mem_cons.mp hc with h | h
        · subst h; exact Or.inl hx
        · exact ih false c h
      · rw [if_neg hx] at hc
        cases b with
        | true => exact ih true c (by simpa using hc)
        | false =>
            rcases List.mem_cons.mp (by simpa using hc) with h | h
            · subst h; exact Or.inr rfl
            · exact ih true c h

/-- C10: for every input string, `colName` yields `"k_"` followed only
by ASCII alphanumerics and underscores, of total length at most 50 —
always a safe SQL identifier however hostile the configured path. -/
theorem claim10_colName_safe (p : String) :
    (colName p).length ≤ 50 ∧
    (colName p).data.take 2 = ['k', '_'] ∧
    ∀ c ∈ (colName p).data.drop 2, isAlnum c = true ∨ c = '_' := by
  have hdata : (colName p).data = ['k', '_'] ++ (squashRuns p.data).take 48 := by
    unfold colName
    rw [strData_append]
  refine ⟨?_, ?_, ?_⟩
  · show (colName p).data.length ≤ 50
    rw [hdata]
    simp only [List.length_append, List.length_take]
    have := Nat.min_le_left 48 (squashRuns p.data).length
    simp
    omega
  · rw [hdata]; rfl
  · intro c hc
    rw [hdata] at hc
    have hdrop : (['k', '_'] ++ (squashRuns p.data).take 48).drop 2 =
        (squashRuns p.data).take 48 := rfl
    rw [hdrop] at hc
    exact squashRunsGo_chars p.data false c (List.mem_of_mem_take hc)

/-! ## C1 — ingest / get-by-id round-trip -/

/-- The item row `POST items` inserts for a document parsed as `out`. -/
theorem postItemsZ_items_ok (indexes : List String) (zodSchema : ZodType) (db : ItemsDb)
    (doc out : Json) (id : String) (ts : Int) (hok : zparse zodSchema [] doc = .ok out) :
    (postItemsZ indexes zodSchema db doc id ts).1.items =
      db.items ++ [⟨id, ts, "v1", out, indexValues indexes out⟩] := by
  unfold postItemsZ
  rw [hok]
  simp only
  split <;> rfl

/-- C1 (amended): ingesting an accepted document and fetching it by the
returned id yields the **validator's parse output** as the body — for
the generic-schema store this is the document with undeclared keys
stripped and declared keys reordered to schema order, so the body is
bit-identical to the input exactly when parsing is the identity on
it. -/
theorem claim1_roundtrip_amended (indexes : List String) (zodSchema : ZodType) (db : ItemsDb)
    (doc out : Json) (id : String) (ts : Int)
    (hok : zparse zodSchema [] doc = .ok out)
    (hfresh : ∀ r ∈ db.items, r.id ≠ id) :
    getItemById (postItemsZ indexes zodSchema db doc id ts).1 id =
      .ok200 (.obj [("id", .str id), ("ts", .num ts),
        ("schema_version", .str "v1"), ("body", out)]) := by
  have hitems := postItemsZ_items_ok indexes zodSchema db doc out id ts hok
  unfold getItemById
  rw [hitems, List.find?_append]
  have h1 : db.items.find? (fun r => r.id == id) = none := by
    rw [List.find?_eq_none]
    intro r hr
    simp [hfresh r hr]
  rw [h1]
  simp [List.find?]

/-- C1 witness: the amended round-trip at a concrete accepted
document. -/
theorem claim1_roundtrip_amended_witness :
    getItemById (postItemsZ [] (.zobj [("a", .zstr, false)] false) ⟨[], []⟩
        (.obj [("a", .str "x")]) "u1" 0).1 "u1" =
      .ok200 (.obj [("id", .str "u1"), ("ts", .num 0),
        ("schema_version", .str "v1"), ("body", .obj [("a", .str "x")])]) :=
  claim1_roundtrip_amended [] _ _ _ _ "u1" 0 (by decide) (by intro r hr; simp at hr)

/-- C1 counterexample: the schema `schemaObjA` accepts
`{a: "x", b: 1}` (zod strips the undeclared key `b` instead of
rejecting it), the ingest succeeds, but the body returned by get-by-id
is `{a: "x"}` — not bit-identical to the input. -/
theorem claim1_counterexample :
    (postItems ⟨[], schemaObjA⟩ ⟨[], []⟩ (.obj [("a", .str "x"), ("b", .num 1)]) "u1" 0).2
      = .ok200 (.obj [("id", .str "u1"), ("ts", .num 0)]) ∧
    getItemById
        (postItems ⟨[], schemaObjA⟩ ⟨[], []⟩ (.obj [("a", .str "x"), ("b", .num 1)]) "u1" 0).1
        "u1"
      = .ok200 (.obj [("id", .str "u1"), ("ts", .num 0), ("schema_version", .str "v1"),
          ("body", .obj [("a", .str "x")])]) ∧
    (Json.obj [("a", .str "x")]) ≠ .obj [("a", .str "x"), ("b", .num 1)] := by
  refine ⟨?_, ?_, by decide⟩
  · simp only [postItems, jsonSchemaToZod_schemaObjA]
    decide
  · simp only [postItems, jsonSchemaToZod_schemaObjA]
    decide

/-! ## C9 — one array-index row per output element -/

/-- A document accepted by the responses validator is an object, hence
truthy — it passes the `if (!doc)` guard. -/
theorem responses_ok_truthy {doc out : Json}
    (h : zparse responsesZodSchema [] doc = .ok out) : jsTruthy doc = true := by
  cases doc with
  | obj fs => rfl
  | null => simp [responsesZodSchema, zparse] at h
  | bool b => simp [responsesZodSchema, zparse] at h
  | num n => simp [responsesZodSchema, zparse] at h
  | str s => simp [responsesZodSchema, zparse] at h
  | arr xs => simp [responsesZodSchema, zparse] at h

theorem respChildRows_idx (maxLen : Nat) (rid : Json) :
    ∀ (xs : List Json) (i : Nat),
      (respChildRows maxLen rid i xs).map (fun e => e.outputIdx) = List.range' i xs.length
  | [], _ => rfl
  | x :: xs, i => by
      simp only [respChildRows, List.map_cons, List.length_cons, List.range']
      rw [respChildRows_idx maxLen rid xs (i + 1)]
      simp [respChildRow]

theorem respChildRows_rid (maxLen : Nat) (rid : Json) :
    ∀ (xs : List Json) (i : Nat), ∀ e ∈ respChildRows maxLen rid i xs, e.responseId = rid
  | [], _, e, he => by simp [respChildRows] at he
  | x :: xs, i, e, he => by
      simp only [respChildRows, List.mem_cons] at he
      rcases he with h | h
      · subst h; rfl
      · exact respChildRows_rid maxLen rid xs (i + 1) e h

theorem insertRespOutputs_ok (maxLen : Nat) (rid : Json) :
    ∀ (xs : List Json) (i : Nat) (db : RespDb),
      (∀ e ∈ db.responseOutputs, e.responseId ≠ rid ∨ e.outputIdx < i) →
      insertRespOutputs db (respChildRows maxLen rid i xs) =
        ({ db with responseOutputs := db.responseOutputs ++ respChildRows maxLen rid i xs },
          true)
  | [], i, db, _ => by simp [respChildRows, insertRespOutputs]
  | x :: xs, i, db, hdb => by
      simp only [respChildRows, insertRespOutputs]
      have hany : (db.responseOutputs.any (fun e =>
          e.responseId == (respChildRow maxLen rid i x).responseId &&
          e.outputIdx == (respChildRow maxLen rid i x).outputIdx)) = false := by
        rw [List.any_eq_false]
        intro e he
        rcases hdb e he with h | h
        · simp [respChildRow, h]
        · simp only [respChildRow, Bool.and_eq_true, beq_iff_eq]
          intro ⟨_, h2⟩
          omega
      rw [hany]
      simp only [Bool.false_eq_true, if_false]
      rw [insertRespOutputs_ok maxLen rid xs (i + 1)
        { db with responseOutputs := db.responseOutputs ++ [respChildRow maxLen rid i x] }
        (by
          intro e he
          rcases List.mem_append.mp he with h | h
          · rcases hdb e h with h' | h'
            · exact Or.inl h'
            · exact Or.inr (by omega)
          · simp only [List.mem_singleton] at h
            subst h
            exact Or.inr (by simp [respChildRow]))]
      simp

/-- C9: ingesting a valid response whose `output` array has `N`
elements (with a fresh internal id and a not-previously-seen
`response_id`) writes exactly `N` `response_outputs` rows for that
response, with positions exactly `0..N-1` in order, and reports `N` as
`outputs_indexed`. -/
theorem claim9_child_rows (cfg : RespCfg) (db : RespDb) (doc out : Json) (xs : List Json)
    (id : String) (ts : Int)
    (hok : zparse responsesZodSchema [] doc = .ok out)
    (hout : jsField out "output" = some (.arr xs))
    (hfreshId : (db.responses.any (fun r => r.id == id)) = false)
    (hfreshRid : ∀ e ∈ db.responseOutputs, e.responseId ≠ (jsField out "id").getD .null) :
    ((postResponses cfg db (some doc) id ts).1.responseOutputs.filter
        (fun e => e.responseId == (jsField out "id").getD .null)).map (fun e => e.outputIdx) =
      List.range xs.length ∧
    (postResponses cfg db (some doc) id ts).2 =
      .ok200 (.obj [("id", .str id), ("response_id", (jsField out "id").getD .null),
        ("ts", .num ts), ("outputs_indexed", .num xs.length)]) := by
  unfold postResponses
  simp only [responses_ok_truthy hok, hok, hfreshId, Bool.true_eq_false,
    Bool.false_eq_true, if_false]
  rw [hout]
  simp only []
  rw [insertRespOutputs_ok cfg.maxContentLength ((jsField out "id").getD .null) xs 0 _ ?hdb]
  case hdb => exact fun e he => Or.inl (hfreshRid e he)
  simp only [if_true]
  constructor
  · rw [List.filter_append]
    have hold : db.responseOutputs.filter
        (fun e => e.responseId == (jsField out "id").getD .null) = [] := by
      rw [List.filter_eq_nil_iff]
      intro e he
      simp [hfreshRid e he]
    have hnew : (respChildRows cfg.maxContentLength ((jsField out "id").getD .null) 0 xs).filter
        (fun e => e.responseId == (jsField out "id").getD .null) =
        respChildRows cfg.maxContentLength ((jsField out "id").getD .null) 0 xs := by
      rw [List.filter_eq_self]
      intro e he
      simp [respChildRows_rid _ _ xs 0 e he]
    rw [hold, hnew]
    simp only [List.nil_append]
    rw [respChildRows_idx, List.range_eq_range']
  · trivial

/-- C9 witness: the concrete one-element response document. -/
theorem claim9_child_rows_witness :
    ((postResponses ⟨[], 1000⟩ ⟨[], []⟩ (some respDocW) "u1" 10).1.responseOutputs.filter
        (fun e => e.responseId == (jsField respDocW "id").getD .null)).map
        (fun e => e.outputIdx) = List.range 1 ∧
    (postResponses ⟨[], 1000⟩ ⟨[], []⟩ (some respDocW) "u1" 10).2 =
      .ok200 (.obj [("id", .str "u1"), ("response_id", (jsField respDocW "id").getD .null),
        ("ts", .num 10), ("outputs_indexed", .num 1)]) := by
  have h := claim9_child_rows ⟨[], 1000⟩ ⟨[], []⟩ respDocW respDocW
    [.obj [("role", .str "assistant"), ("content", .str "hi")]] "u1" 10
    (by decide) (by decide) (by decide) (by intro e he; simp at he)
  exact h

/-! ## C5 — `output.*` paths and the document row -/

theorem recordSet_append (m : List (String × Option String)) (k : String) (v : Option String)
    (h : ∀ kv ∈ m, kv.1 ≠ k) : recordSet m k v = m ++ [(k, v)] := by
  unfold recordSet
  have hany : (m.any (fun kv => kv.1 == k)) = false := by
    rw [List.any_eq_false]
    intro kv hkv
    simp [h kv hkv]
  rw [hany]
  simp

theorem indexValuesGo_spec (doc : Json) :
    ∀ (idxs : List String) (m : List (String × Option String)),
      (∀ kv ∈ m, ∀ p ∈ idxs, kv.1 ≠ colName p) → (idxs.map colName).Nodup →
      indexValuesGo doc m idxs = m ++ idxs.map (fun p => (colName p, indexValueOf doc p))
  | [], m, _, _ => by simp [indexValuesGo]
  | p :: rest, m, hm, hnd => by
      simp only [indexValuesGo]
      rw [recordSet_append m (colName p) (indexValueOf doc p)
        (fun kv hkv => hm kv hkv p (List.mem_cons_self p rest))]
      rw [indexValuesGo_spec doc rest (m ++ [(colName p, indexValueOf doc p)])
        (by
          intro kv hkv q hq
          rcases List.mem_append.mp hkv with h | h
          · exact hm kv h q (List.mem_cons_of_mem p hq)
          · simp only [List.mem_singleton] at h
            subst h
            simp only [List.map_cons, List.nodup_cons] at hnd
            intro he
            apply hnd.1
            have he' : colName p = colName q := he
            rw [he']
            exact List.mem_map_of_mem colName hq)
        (by simp only [List.map_cons, List.nodup_cons] at hnd; exact hnd.2)]
      simp

theorem indexValues_lookup (doc : Json) :
    ∀ (idxs : List String) (p : String), (idxs.map colName).Nodup → p ∈ idxs →
      (idxs.map (fun q => (colName q, indexValueOf doc q))).lookup (colName p) =
        some (indexValueOf doc p)
  | [], p, _, hp => by simp at hp
  | q :: rest, p, hnd, hp => by
      simp only [List.map_cons, List.nodup_cons] at hnd
      rcases List.mem_cons.mp hp with h | h
      · subst h
        simp [List.lookup]
      · have hne : colName q ≠ colName p := by
          intro he
          exact hnd.1 (he ▸ List.mem_map_of_mem colName h)
        have hbe : (colName p == colName q) = false := by
          simp only [beq_eq_false_iff_ne, ne_eq]
          exact fun he => hne he.symm
        simp only [List.lookup, hbe]
        exact indexValues_lookup doc rest p hnd.2 h

/-- C5 (amended): an `output.`-rooted index path **is** written onto the
document row — its `k_` column receives the pipe-joined concatenation of
the per-element extracted values (`null` when no element yields one);
the per-element materialization into the array-index table happens in
addition, not instead. -/
theorem claim5_output_column_amended (indexes : List String) (zodSchema : ZodType)
    (db : ItemsDb) (doc out : Json) (id : String) (ts : Int) (p : String)
    (hok : zparse zodSchema [] doc = .ok out)
    (hnodup : (indexes.map colName).Nodup)
    (hp : p ∈ indexes) (houtp : strBegins p "output." = true) :
    ∃ row, (postItemsZ indexes zodSchema db doc id ts).1.items = db.items ++ [row] ∧
      row.kvals.lookup (colName p) =
        some (if (extractOutputValues out p).length > 0
          then some (strJoin "|" (extractOutputValues out p)) else none) := by
  refine ⟨⟨id, ts, "v1", out, indexValues indexes out⟩,
    postItemsZ_items_ok indexes zodSchema db doc out id ts hok, ?_⟩
  show (indexValues indexes out).lookup (colName p) = _
  unfold indexValues
  rw [indexValuesGo_spec out indexes [] (by intro kv hkv; simp at hkv) hnodup]
  rw [List.nil_append]
  rw [indexValues_lookup out indexes p hnodup hp]
  unfold indexValueOf
  rw [if_pos houtp]

/-- A document whose `output` array has two role-carrying elements. -/
def docOutW : Json := .obj [("output", .arr [.obj [("role", .str "assistant")],
  .obj [("role", .str "tool")]])]

/-- C5 witness: the amended statement at the concrete two-element
document. -/
theorem claim5_output_column_amended_witness :
    ∃ row, (postItemsZ ["output.role"] (.zobj [("output", .zarr .zany, false)] false)
        ⟨[], []⟩ docOutW "u1" 5).1.items = [] ++ [row] ∧
      row.kvals.lookup (colName "output.role") =
        some (if (extractOutputValues docOutW "output.role").length > 0
          then some (strJoin "|" (extractOutputValues docOutW "output.role")) else none) :=
  claim5_output_column_amended ["output.role"] (.zobj [("output", .zarr .zany, false)] false)
    ⟨[], []⟩ docOutW docOutW "u1" 5 "output.role" (by decide) (by decide) (by decide)
    (by decide)

/-- C5 counterexample: with index `output.role` configured, ingesting a
document with two role-carrying output elements stores
`"assistant|tool"` in the document row's `k_output_role` column — the
claim that the column receives no extracted value is false. -/
theorem claim5_counterexample :
    (postItems ⟨["output.role"], schemaOutArr⟩ ⟨[], []⟩ docOutW "u1" 5).1.items.map
        (fun r => r.kvals) = [[("k_output_role", some "assistant|tool")]] ∧
    (some "assistant|tool" : Option String) ≠ none := by
  refine ⟨?_, by decide⟩
  simp only [postItems, jsonSchemaToZod_schemaOutArr]
  decide

/-! ## C8 — identifiers are random UUIDs, not monotonic -/

/-- The parameter set of a bare `GET items` (no query string). -/
def pNone : ItemsQueryParams := ⟨none, none, [], none, none, none⟩

/-- A bare listing: no join, no predicates, `LIMIT 50`. -/
theorem runItemsList_pNone (db : ItemsDb) :
    runItemsList db pNone =
      (((db.items.map projectItem).dedup.insertionSort
          (fun a b => jsStrLe a.id b.id)).take 50,
        (((db.items.map projectItem).dedup.insertionSort
          (fun a b => jsStrLe a.id b.id)).take 50).getLast?.map (fun r => r.id)) := by
  unfold runItemsList
  have hq : buildItemsQuery pNone = ⟨false, none, none, none, none, [], 50⟩ := rfl
  rw [hq]
  have hm : ∀ r : ItemRow, rowMatchesItems ⟨false, none, none, none, none, [], 50⟩ r = true :=
    fun r => rfl
  unfold itemsRowSet
  simp only [Bool.false_eq_true, if_false]
  rw [List.filter_eq_self.mpr (fun a _ => hm a)]

/-- A v4 UUID near the top of the string order. -/
def uuidHi : String := "ffffffff-ffff-4fff-bfff-ffffffffffff"

/-- A v4 UUID near the bottom of the string order. -/
def uuidLo : String := "00000000-0000-4000-8000-000000000000"

def c8zt : ZodType := .zobj [("a", .zstr, false)] false

def c8doc : Json := .obj [("a", .str "x")]

def c8db : ItemsDb :=
  (postItemsZ [] c8zt (postItemsZ [] c8zt ⟨[], []⟩ c8doc uuidHi 0).1 c8doc uuidLo 1).1

/-- C8 counterexample: `crypto.randomUUID()` can return `uuidHi` and
then `uuidLo` (both valid v4 UUIDs); in that execution the later
document's internal identifier is **not** strictly greater than the
earlier one's, and listing ascending by id returns the two records in
the reverse of insertion order. -/
theorem claim8_counterexample :
    c8db.items.map (fun r => r.id) = [uuidHi, uuidLo] ∧
    jsLtB uuidHi uuidLo = false ∧ uuidHi ≠ uuidLo ∧
    (runItemsList c8db pNone).1.map (fun r => r.id) = [uuidLo, uuidHi] := by
  decide

/-- C8 (amended): the internal identifiers of two successive ingests
are exactly the two generated UUID strings in call order, and the
ascending-id listing returns the two records in UUID string order —
which coincides with insertion order precisely when the later UUID
happens to compare greater. -/
theorem claim8_listing_order_amended (zodSchema : ZodType) (doc1 doc2 out1 out2 : Json)
    (u1 u2 : String) (ts1 ts2 : Int)
    (h1 : zparse zodSchema [] doc1 = .ok out1) (h2 : zparse zodSchema [] doc2 = .ok out2)
    (hne : u1 ≠ u2) :
    ((postItemsZ [] zodSchema (postItemsZ [] zodSchema ⟨[], []⟩ doc1 u1 ts1).1
        doc2 u2 ts2).1.items.map (fun r => r.id) = [u1, u2]) ∧
    (runItemsList (postItemsZ [] zodSchema (postItemsZ [] zodSchema ⟨[], []⟩ doc1 u1 ts1).1
        doc2 u2 ts2).1 pNone).1.map (fun r => r.id) =
      (if jsLtB u1 u2 then [u1, u2] else [u2, u1]) := by
  have hi1 := postItemsZ_items_ok [] zodSchema ⟨[], []⟩ doc1 out1 u1 ts1 h1
  have hi2 := postItemsZ_items_ok [] zodSchema (postItemsZ [] zodSchema ⟨[], []⟩ doc1 u1 ts1).1
    doc2 out2 u2 ts2 h2
  rw [hi1] at hi2
  simp only [List.nil_append, List.singleton_append] at hi2
  constructor
  · rw [hi2]; rfl
  · rw [runItemsList_pNone, hi2]
    set r1 : ItemRow := ⟨u1, ts1, "v1", out1, indexValues [] out1⟩ with hr1
    set r2 : ItemRow := ⟨u2, ts2, "v1", out2, indexValues [] out2⟩ with hr2
    have hpne : projectItem r1 ≠ projectItem r2 := by
      intro he
      exact hne (congrArg ProjectedItem.id he)
    have hdd : ([r1, r2].map projectItem).dedup = [projectItem r1, projectItem r2] := by
      simp only [List.map_cons, List.map_nil]
      rw [List.dedup_cons_of_not_mem (by simp [hpne]),
        List.dedup_cons_of_not_mem (by simp), List.dedup_nil]
    rw [hdd]
    by_cases hlt : jsLtB u1 u2 = true
    · have hle : jsStrLe (projectItem r1).id (projectItem r2).id := by
        show jsLeB u1 u2 = true
        unfold jsLeB
        rw [show jsLtB u2 u1 = false from jsLtCharsB_asymm _ _ hlt]
        rfl
      simp only [List.insertionSort, List.orderedInsert, if_pos hle]
      rw [hlt]
      rfl
    · have hlt21 : jsLtB u2 u1 = true := by
        rcases h : jsLtB u2 u1 with _ | _
        · exact absurd (strEqOfData (jsLtCharsB_conn u1.data u2.data
            (by simpa using hlt) h)) hne
        · rfl
      have hnle : ¬ jsStrLe (projectItem r1).id (projectItem r2).id := by
        show ¬ jsLeB u1 u2 = true
        unfold jsLeB
        rw [hlt21]
        simp
      have hle21 : jsStrLe (projectItem r2).id (projectItem r1).id := by
        show jsLeB u2 u1 = true
        unfold jsLeB
        rw [show jsLtB u1 u2 = false by simpa using hlt]
        rfl
      simp only [List.insertionSort, List.orderedInsert, if_neg hnle, if_pos hle21]
      rw [if_neg (by simpa using hlt)]
      rfl

/-- C8 witness: the amended listing rule at the two concrete UUIDs. -/
theorem claim8_listing_order_amended_witness :
    ((postItemsZ [] c8zt (postItemsZ [] c8zt ⟨[], []⟩ c8doc uuidHi 0).1
        c8doc uuidLo 1).1.items.map (fun r => r.id) = [uuidHi, uuidLo]) ∧
    (runItemsList (postItemsZ [] c8zt (postItemsZ [] c8zt ⟨[], []⟩ c8doc uuidHi 0).1
        c8doc uuidLo 1).1 pNone).1.map (fun r => r.id) =
      (if jsLtB uuidHi uuidLo then [uuidHi, uuidLo] else [uuidLo, uuidHi]) :=
  claim8_listing_order_amended c8zt c8doc c8doc (.obj [("a", .str "x")])
    (.obj [("a", .str "x")]) uuidHi uuidLo 0 1 (by decide) (by decide) (by decide)

/-! ## C6 — join policy and de-duplication -/

theorem itemsRowSet_shape (db : ItemsDb) (q : ItemsQuery) :
    ∀ x ∈ itemsRowSet db q, ∃ it ∈ db.items, rowMatchesItems q it = true ∧ x = projectItem it := by
  intro x hx
  unfold itemsRowSet at hx
  split at hx
  · rcases List.mem_flatMap.mp hx with ⟨it, hit, hx2⟩
    rcases List.mem_filter.mp hit with ⟨hmem, hmatch⟩
    rcases List.mem_map.mp hx2 with ⟨oi, _, hproj⟩
    exact ⟨it, hmem, hmatch, hproj.symm⟩
  · rcases List.mem_map.mp hx with ⟨it, hit, hproj⟩
    rcases List.mem_filter.mp hit with ⟨hmem, hmatch⟩
    exact ⟨it, hmem, hmatch, hproj.symm⟩

theorem itemsRowSet_mem_join {db : ItemsDb} {q : ItemsQuery} {it : ItemRow}
    (hj : q.hasJoin = true) (hmem : it ∈ db.items)
    (hids : (db.items.map (fun r => r.id)).Nodup) :
    projectItem it ∈ itemsRowSet db q ↔
      rowMatchesItems q it = true ∧
      ∃ oi ∈ db.outputIndex, oi.itemId = it.id ∧ rowMatchesOutput q oi = true := by
  unfold itemsRowSet
  rw [if_pos hj]
  constructor
  · intro hx
    rcases List.mem_flatMap.mp hx with ⟨it', hit', hx2⟩
    rcases List.mem_filter.mp hit' with ⟨hmem', hmatch'⟩
    rcases List.mem_map.mp hx2 with ⟨oi, hoi, hproj⟩
    have heq : it' = it := by
      apply List.inj_on_of_nodup_map hids hmem' hmem
      exact congrArg ProjectedItem.id hproj
    subst heq
    rcases List.mem_filter.mp hoi with ⟨hoim, hoib⟩
    simp only [Bool.and_eq_true, beq_iff_eq] at hoib
    exact ⟨hmatch', oi, hoim, hoib.1, hoib.2⟩
  · rintro ⟨hmatch, oi, hoim, hoid, hoiq⟩
    apply List.mem_flatMap.mpr
    refine ⟨it, List.mem_filter.mpr ⟨hmem, hmatch⟩, ?_⟩
    apply List.mem_map.mpr
    exact ⟨oi, List.mem_filter.mpr ⟨hoim, by simp [hoid, hoiq]⟩, rfl⟩

theorem itemsRowSet_dedup_inj (db : ItemsDb) (q : ItemsQuery)
    (hids : (db.items.map (fun r => r.id)).Nodup) :
    ∀ x ∈ (itemsRowSet db q).dedup, ∀ y ∈ (itemsRowSet db q).dedup, x.id = y.id → x = y := by
  intro x hx y hy hxy
  rcases itemsRowSet_shape db q x (List.mem_dedup.mp hx) with ⟨it1, hm1, _, he1⟩
  rcases itemsRowSet_shape db q y (List.mem_dedup.mp hy) with ⟨it2, hm2, _, he2⟩
  subst he1
  subst he2
  have h12 : it1 = it2 := List.inj_on_of_nodup_map hids hm1 hm2 hxy
  rw [h12]

theorem itemsRowSet_dedup_ids_nodup (db : ItemsDb) (q : ItemsQuery)
    (hids : (db.items.map (fun r => r.id)).Nodup) :
    ((itemsRowSet db q).dedup.map (fun r => r.id)).Nodup :=
  List.Nodup.map_on (itemsRowSet_dedup_inj db q hids) (List.nodup_dedup _)

theorem runItemsList_nodup (db : ItemsDb) (p : ItemsQueryParams)
    (hids : (db.items.map (fun r => r.id)).Nodup) :
    ((runItemsList db p).1.map (fun r => r.id)).Nodup := by
  unfold runItemsList
  simp only []
  rw [List.map_take]
  apply List.Nodup.sublist (List.take_sublist _ _)
  have hperm : ((itemsRowSet db (buildItemsQuery p)).dedup.insertionSort
      (fun a b => jsStrLe a.id b.id)).Perm ((itemsRowSet db (buildItemsQuery p)).dedup) :=
    List.perm_insertionSort _ _
  exact ((hperm.map (fun r => r.id)).nodup_iff).mpr
    (itemsRowSet_dedup_ids_nodup db (buildItemsQuery p) hids)

theorem runItemsList_noJoin (items : List ItemRow) (p : ItemsQueryParams)
    (hnj : (buildItemsQuery p).hasJoin = false) (oi1 oi2 : List OutputRow) :
    runItemsList ⟨items, oi1⟩ p = runItemsList ⟨items, oi2⟩ p := by
  unfold runItemsList itemsRowSet
  simp only [hnj, Bool.false_eq_true, if_false]

theorem runItemsList_mem_join (db : ItemsDb) (p : ItemsQueryParams) (it : ItemRow)
    (hids : (db.items.map (fun r => r.id)).Nodup)
    (hj : (buildItemsQuery p).hasJoin = true)
    (hlim : db.items.length ≤ (buildItemsQuery p).limit) (hmem : it ∈ db.items) :
    projectItem it ∈ (runItemsList db p).1 ↔
      rowMatchesItems (buildItemsQuery p) it = true ∧
      ∃ oi ∈ db.outputIndex, oi.itemId = it.id ∧
        rowMatchesOutput (buildItemsQuery p) oi = true := by
  unfold runItemsList
  simp only []
  have h2 := itemsRowSet_dedup_ids_nodup db (buildItemsQuery p) hids
  have hsub : ((itemsRowSet db (buildItemsQuery p)).dedup.map (fun r => r.id)) ⊆
      (db.items.map (fun r => r.id)) := by
    intro x hx
    rcases List.mem_map.mp hx with ⟨y, hy, he⟩
    rcases itemsRowSet_shape db _ y (List.mem_dedup.mp hy) with ⟨it', hm', _, he'⟩
    subst he'
    subst he
    exact List.mem_map_of_mem _ hm'
  have hlen : (itemsRowSet db (buildItemsQuery p)).dedup.length ≤ db.items.length := by
    have hc1 : ((itemsRowSet db (buildItemsQuery p)).dedup.map (fun r => r.id)).toFinset.card =
        ((itemsRowSet db (buildItemsQuery p)).dedup.map (fun r => r.id)).length :=
      List.toFinset_card_of_nodup h2
    have hc2 : ((itemsRowSet db (buildItemsQuery p)).dedup.map (fun r => r.id)).toFinset ⊆
        (db.items.map (fun r => r.id)).toFinset := by
      intro x hx
      rw [List.mem_toFinset] at hx ⊢
      exact hsub hx
    have hc3 := Finset.card_le_card hc2
    have hc4 := (db.items.map (fun r => r.id)).toFinset_card_le
    simp only [List.length_map] at hc1 hc4
    omega
  have hsortlen : ((itemsRowSet db (buildItemsQuery p)).dedup.insertionSort
      (fun a b => jsStrLe a.id b.id)).length =
      (itemsRowSet db (buildItemsQuery p)).dedup.length :=
    (List.perm_insertionSort _ _).length_eq
  rw [List.take_of_length_le (by omega)]
  rw [(List.perm_insertionSort _ _).mem_iff, List.mem_dedup]
  exact itemsRowSet_mem_join hj hmem hids

/-- C6: the translated query joins the array-index table iff at least
one array-scoped filter is truthy; without such a filter the
`output_index` table is irrelevant to the result; with a join the
result ids are duplicate-free (each document appears at most once
despite several matching elements), and — when the limit does not
truncate — a document appears exactly when it passes the document
filters and has at least one matching array element. -/
theorem claim6_join_dedup (db : ItemsDb) (p : ItemsQueryParams)
    (hids : (db.items.map (fun r => r.id)).Nodup) :
    ((buildItemsQuery p).hasJoin =
      (truthyParam p.outputType || truthyParam p.outputRole || truthyParam p.outputContent)) ∧
    ((buildItemsQuery p).hasJoin = false → ∀ oi1 oi2 : List OutputRow,
      runItemsList ⟨db.items, oi1⟩ p = runItemsList ⟨db.items, oi2⟩ p) ∧
    ((runItemsList db p).1.map (fun r => r.id)).Nodup ∧
    (∀ it ∈ db.items, (buildItemsQuery p).hasJoin = true →
      db.items.length ≤ (buildItemsQuery p).limit →
      (projectItem it ∈ (runItemsList db p).1 ↔
        rowMatchesItems (buildItemsQuery p) it = true ∧
        ∃ oi ∈ db.outputIndex, oi.itemId = it.id ∧
          rowMatchesOutput (buildItemsQuery p) oi = true)) :=
  ⟨rfl,
   fun hnj oi1 oi2 => runItemsList_noJoin db.items p hnj oi1 oi2,
   runItemsList_nodup db p hids,
   fun it hmem hj hlim => runItemsList_mem_join db p it hids hj hlim hmem⟩

/-- A one-document table whose document has two `tool`-role output
elements. -/
def dbC6 : ItemsDb :=
  ⟨[⟨"u1", 5, "v1", .null, []⟩],
   [⟨"u1", 0, none, some (.str "tool"), none⟩, ⟨"u1", 1, none, some (.str "tool"), none⟩]⟩

def pC6 : ItemsQueryParams := ⟨none, none, [], none, some "tool", none⟩

/-- C6 witness: with the `output_role=tool` filter the query joins, and
the document with two matching elements appears in the result — exactly
once, since the result ids are duplicate-free. -/
theorem claim6_join_dedup_witness :
    (buildItemsQuery pC6).hasJoin = true ∧
    ((runItemsList dbC6 pC6).1.map (fun r => r.id)).Nodup ∧
    projectItem ⟨"u1", 5, "v1", .null, []⟩ ∈ (runItemsList dbC6 pC6).1 := by
  have h := claim6_join_dedup dbC6 pC6 (by decide)
  refine ⟨by decide, h.2.2.1, ?_⟩
  exact (h.2.2.2 ⟨"u1", 5, "v1", .null, []⟩ (by decide) (by decide) (by decide)).mpr
    ⟨by decide, ⟨"u1", 0, none, some (.str "tool"), none⟩, by decide, rfl, by decide⟩

/-! ## C7 — validation failure: no write, one message per path

zod aggregates issues across object properties and array elements; the
issue paths are pairwise distinct because sibling properties carry
distinct keys (JS object shapes cannot repeat a key — `wfB`) and
sibling elements distinct indices. -/

/-- The path element at the parent-path position distinguishes sibling
issue blocks. -/
theorem path_tag (p : List PathElem) (e : PathElem) (s : List PathElem) :
    ((p ++ [e]) ++ s)[p.length]? = some e := by
  rw [List.append_assoc, List.getElem?_append_right (Nat.le_refl p.length)]
  simp

theorem zparseItems_paths (f : List PathElem → Json → Except (List Issue) Json)
    (p : List PathElem)
    (hf : ∀ p' v iss, f p' v = .error iss → ∀ i ∈ iss, ∃ s, i.path = p' ++ s) :
    ∀ (xs : List Json) (i0 : Nat), ∀ i ∈ (zparseItems f p xs i0).2,
      ∃ j s, i0 ≤ j ∧ i.path = (p ++ [.idx j]) ++ s
  | [], i0, i, hi => by simp [zparseItems] at hi
  | x :: xs, i0, i, hi => by
      simp only [zparseItems] at hi
      cases hx : f (p ++ [.idx i0]) x with
      | ok out =>
          rw [hx] at hi
          simp only at hi
          rcases zparseItems_paths f p hf xs (i0 + 1) i hi with ⟨j, s, hj, hpath⟩
          exact ⟨j, s, by omega, hpath⟩
      | error iss2 =>
          rw [hx] at hi
          simp only at hi
          rcases List.mem_append.mp hi with h | h
          · rcases hf _ _ _ hx i h with ⟨s, hs⟩
            exact ⟨i0, s, Nat.le_refl _, hs⟩
          · rcases zparseItems_paths f p hf xs (i0 + 1) i h with ⟨j, s, hj, hpath⟩
            exact ⟨j, s, by omega, hpath⟩

theorem zparseShape_paths (p : List PathElem) (fields : List (String × Json)) :
    ∀ (sh : List (String × ZodType × Bool)),
      (∀ e ∈ sh, ∀ p' v iss, zparse e.2.1 p' v = .error iss →
        ∀ i ∈ iss, ∃ s, i.path = p' ++ s) →
      ∀ i ∈ (zparseShape sh p fields).2,
        ∃ k s, k ∈ sh.map (fun e => e.1) ∧ i.path = (p ++ [.key k]) ++ s
  | [], _, i, hi => by simp [zparseShape] at hi
  | (k, t, opt) :: rest, hsh, i, hi => by
      simp only [zparseShape] at hi
      have hrest := zparseShape_paths p fields rest
        (fun e he => hsh e (List.mem_cons_of_mem _ he))
      cases hl : lookupJ fields k with
      | none =>
          rw [hl] at hi
          by_cases hopt : opt = true
          · rw [if_pos hopt] at hi
            rcases hrest i hi with ⟨k', s, hk', hpath⟩
            exact ⟨k', s, List.mem_cons_of_mem _ hk', hpath⟩
          · rw [if_neg hopt] at hi
            simp only at hi
            rcases List.mem_cons.mp hi with h | h
            · subst h
              exact ⟨k, [], List.mem_cons_self _ _, by simp⟩
            · rcases hrest i h with ⟨k', s, hk', hpath⟩
              exact ⟨k', s, List.mem_cons_of_mem _ hk', hpath⟩
      | some v =>
          rw [hl] at hi
          simp only [] at hi
          cases hx : zparse t (p ++ [.key k]) v with
          | ok out =>
              rw [hx] at hi
              simp only at hi
              rcases hrest i hi with ⟨k', s, hk', hpath⟩
              exact ⟨k', s, List.mem_cons_of_mem _ hk', hpath⟩
          | error iss2 =>
              rw [hx] at hi
              simp only at hi
              rcases List.mem_append.mp hi with h | h
              · rcases hsh (k, t, opt) (List.mem_cons_self _ _) _ _ _ hx i h with ⟨s, hs⟩
                exact ⟨k, s, List.mem_cons_self _ _, hs⟩
              · rcases hrest i h with ⟨k', s, hk', hpath⟩
                exact ⟨k', s, List.mem_cons_of_mem _ hk', hpath⟩

/-- Every issue produced by `zparse t p v` has `p` as a path prefix. -/
theorem zparse_paths : ∀ (t : ZodType) (p : List PathElem) (v : Json) (issues : List Issue),
    zparse t p v = .error issues → ∀ i ∈ issues, ∃ s, i.path = p ++ s
  | .zany, p, v, issues, h => by simp [zparse] at h
  | .zstr, p, v, issues, h => by
      cases v <;> simp [zparse] at h <;>
        (subst h; exact fun i hi => ⟨[], by simp at hi; rw [hi]; simp⟩)
  | .zliteral lit, p, v, issues, h => by
      by_cases hv : v = lit
      · simp [zparse, hv] at h
      · simp [zparse, hv] at h
        subst h
        exact fun i hi => ⟨[], by simp at hi; rw [hi]; simp⟩
  | .zenum vals, p, v, issues, h => by
      cases v <;> simp [zparse] at h
      case str s =>
        by_cases hv : (Json.str s) ∈ vals
        · simp [hv] at h
        · simp [hv] at h
          subst h
          exact fun i hi => ⟨[], by simp at hi; rw [hi]; simp⟩
      all_goals (subst h; exact fun i hi => ⟨[], by simp at hi; rw [hi]; simp⟩)
  | .znum, p, v, issues, h => by
      cases v <;> simp [zparse] at h <;>
        (subst h; exact fun i hi => ⟨[], by simp at hi; rw [hi]; simp⟩)
  | .zbool, p, v, issues, h => by
      cases v <;> simp [zparse] at h <;>
        (subst h; exact fun i hi => ⟨[], by simp at hi; rw [hi]; simp⟩)
  | .znull, p, v, issues, h => by
      cases v <;> simp [zparse] at h <;>
        (subst h; exact fun i hi => ⟨[], by simp at hi; rw [hi]; simp⟩)
  | .znullable t, p, v, issues, h => by
      cases v with
      | null => simp [zparse] at h
      | bool b => exact zparse_paths t p _ issues h
      | num n => exact zparse_paths t p _ issues h
      | str s => exact zparse_paths t p _ issues h
      | arr xs => exact zparse_paths t p _ issues h
      | obj fs => exact zparse_paths t p _ issues h
  | .zarr t, p, v, issues, h => by
      cases v <;> simp [zparse] at h
      case arr xs =>
        split at h
        · exact absurd h (by simp)
        · have hiss : issues = (zparseItems (zparse t) p xs 0).2 := by
            rcases h with h
            injection h with h2
            exact h2.symm
          intro i hi
          rw [hiss] at hi
          rcases zparseItems_paths (zparse t) p (fun p' v iss he => zparse_paths t p' v iss he)
            xs 0 i hi with ⟨j, s, _, hpath⟩
          exact ⟨[.idx j] ++ s, by rw [hpath, List.append_assoc]⟩
      all_goals (subst h; exact fun i hi => ⟨[], by simp at hi; rw [hi]; simp⟩)
  | .zunion vs, p, v, issues, h => by
      simp only [zparse] at h
      cases hu : zparseUnion vs p v with
      | some out => rw [hu] at h; simp at h
      | none =>
          rw [hu] at h
          simp at h
          subst h
          exact fun i hi => ⟨[], by simp at hi; rw [hi]; simp⟩
  | .zrecordAny, p, v, issues, h => by
      cases v <;> simp [zparse] at h <;>
        (subst h; exact fun i hi => ⟨[], by simp at hi; rw [hi]; simp⟩)
  | .zobj sh catchall, p, v, issues, h => by
      cases v <;> simp [zparse] at h
      case obj fields =>
        split at h
        · exact absurd h (by simp)
        · have hiss : issues = (zparseShape sh p fields).2 := by
            rcases h with h
            injection h with h2
            exact h2.symm
          intro i hi
          rw [hiss] at hi
          rcases zparseShape_paths p fields sh
            (fun e he p' v iss hx =>
              match e, he with
              | (k1, t1, b1), he1 => zparse_paths t1 p' v iss hx) i hi with
            ⟨k, s, _, hpath⟩
          exact ⟨[.key k] ++ s, by rw [hpath, List.append_assoc]⟩
      all_goals (subst h; exact fun i hi => ⟨[], by simp at hi; rw [hi]; simp⟩)
termination_by t => sizeOf t
decreasing_by
  all_goals simp
  all_goals try omega
  all_goals
    (have hm := List.sizeOf_lt_of_mem ‹(_, _, _) ∈ sh›
     simp at hm
     omega)

theorem keysNodupB_cons {k : String} {ks : List String} (h : keysNodupB (k :: ks) = true) :
    (k ∈ ks → False) ∧ keysNodupB ks = true := by
  simp only [keysNodupB, Bool.and_eq_true, Bool.not_eq_true'] at h
  refine ⟨fun hm => ?_, h.2⟩
  have := h.1
  rw [List.contains_eq_any_beq] at this
  rw [List.any_eq_false] at this
  exact absurd (by simp : (k == k) = true) (by simpa using this k hm)

theorem wfShapeB_mem : ∀ {sh : List (String × ZodType × Bool)}, wfShapeB sh = true →
    ∀ e ∈ sh, e.2.1.wfB = true
  | [], _, e, he => by simp at he
  | (k, t, b) :: rest, h, e, he => by
      simp only [wfShapeB, Bool.and_eq_true] at h
      rcases List.mem_cons.mp he with h1 | h1
      · subst h1; exact h.1
      · exact wfShapeB_mem h.2 e h1

theorem zparseItems_nodup (f : List PathElem → Json → Except (List Issue) Json)
    (p : List PathElem)
    (hf1 : ∀ p' v iss, f p' v = .error iss → ∀ i ∈ iss, ∃ s, i.path = p' ++ s)
    (hf2 : ∀ p' v iss, f p' v = .error iss → (iss.map Issue.path).Nodup) :
    ∀ (xs : List Json) (i0 : Nat), (((zparseItems f p xs i0).2).map Issue.path).Nodup
  | [], i0 => by simp [zparseItems]
  | x :: xs, i0 => by
      simp only [zparseItems]
      cases hx : f (p ++ [.idx i0]) x with
      | ok out =>
          simp only
          exact zparseItems_nodup f p hf1 hf2 xs (i0 + 1)
      | error iss2 =>
          simp only
          rw [List.map_append]
          refine List.Nodup.append (hf2 _ _ _ hx) (zparseItems_nodup f p hf1 hf2 xs (i0 + 1)) ?_
          intro a ha hb
          rcases List.mem_map.mp ha with ⟨i1, hi1, he1⟩
          rcases List.mem_map.mp hb with ⟨i2, hi2, he2⟩
          rcases hf1 _ _ _ hx i1 hi1 with ⟨s1, hs1⟩
          rcases zparseItems_paths f p hf1 xs (i0 + 1) i2 hi2 with ⟨j, s2, hj, hs2⟩
          have ht1 : a[p.length]? = some (.idx i0) := by
            rw [← he1, hs1]; exact path_tag p (.idx i0) s1
          have ht2 : a[p.length]? = some (.idx j) := by
            rw [← he2, hs2]; exact path_tag p (.idx j) s2
          rw [ht1] at ht2
          have := PathElem.idx.inj (Option.some.inj ht2)
          omega

theorem zparseShape_nodup (p : List PathElem) (fields : List (String × Json)) :
    ∀ (sh : List (String × ZodType × Bool)),
      (∀ e ∈ sh, ∀ p' v iss, zparse e.2.1 p' v = .error iss →
        ∀ i ∈ iss, ∃ s, i.path = p' ++ s) →
      (∀ e ∈ sh, ∀ p' v iss, zparse e.2.1 p' v = .error iss →
        (iss.map Issue.path).Nodup) →
      keysNodupB (sh.map (fun e => e.1)) = true →
      (((zparseShape sh p fields).2).map Issue.path).Nodup
  | [], _, _, _ => by simp [zparseShape]
  | (k, t, opt) :: rest, h1, h2, hk => by
      obtain ⟨hkc, hkr⟩ := keysNodupB_cons hk
      have h1r := fun e he => h1 e (List.mem_cons_of_mem _ he)
      have h2r := fun e he => h2 e (List.mem_cons_of_mem _ he)
      have hrestN := zparseShape_nodup p fields rest h1r h2r hkr
      have hrestP := zparseShape_paths p fields rest h1r
      have hdisj : ∀ (blk : List Issue),
          (∀ i ∈ blk, ∃ s, i.path = (p ++ [.key k]) ++ s) →
          ((blk.map Issue.path) ++ ((zparseShape rest p fields).2.map Issue.path)).Nodup →
          True := fun _ _ _ => trivial
      simp only [zparseShape]
      cases hl : lookupJ fields k with
      | none =>
          by_cases hopt : opt = true
          · simp only [if_pos hopt]
            exact hrestN
          · simp only [if_neg hopt]
            simp only [List.map_cons]
            refine List.nodup_cons.mpr ⟨?_, hrestN⟩
            intro hmem
            rcases List.mem_map.mp hmem with ⟨i2, hi2, he2⟩
            rcases hrestP i2 hi2 with ⟨k', s2, hk', hs2⟩
            have ht1 : (p ++ [PathElem.key k])[p.length]? = some (.key k) := by
              have := path_tag p (.key k) []
              simpa using this
            have ht2 : (p ++ [PathElem.key k])[p.length]? = some (.key k') := by
              rw [← he2] at ht1 ⊢
              rw [hs2]
              exact path_tag p (.key k') s2
            have hkk : k = k' := PathElem.key.inj (Option.some.inj (ht1.symm.trans ht2))
            exact hkc (hkk ▸ hk')
      | some v =>
          simp only []
          cases hx : zparse t (p ++ [.key k]) v with
          | ok out =>
              simp only
              exact hrestN
          | error iss2 =>
              simp only
              rw [List.map_append]
              refine List.Nodup.append (h2 (k, t, opt) (List.mem_cons_self _ _) _ _ _ hx)
                hrestN ?_
              intro a ha hb
              rcases List.mem_map.mp ha with ⟨i1, hi1, he1⟩
              rcases List.mem_map.mp hb with ⟨i2, hi2, he2⟩
              rcases h1 (k, t, opt) (List.mem_cons_self _ _) _ _ _ hx i1 hi1 with ⟨s1, hs1⟩
              rcases hrestP i2 hi2 with ⟨k', s2, hk', hs2⟩
              have ht1 : a[p.length]? = some (.key k) := by
                rw [← he1, hs1]; exact path_tag p (.key k) s1
              have ht2 : a[p.length]? = some (.key k') := by
                rw [← he2, hs2]; exact path_tag p (.key k') s2
              have hkk : k = k' := PathElem.key.inj (Option.some.inj (ht1.symm.trans ht2))
              exact hkc (hkk ▸ hk')

/-- The issue paths of a failed parse are pairwise distinct: one issue
per offending field path. -/
theorem zparse_nodup : ∀ (t : ZodType), t.wfB = true →
    ∀ (p : List PathElem) (v : Json) (issues : List Issue),
      zparse t p v = .error issues → (issues.map Issue.path).Nodup
  | .zany, _, p, v, issues, h => by simp [zparse] at h
  | .zstr, _, p, v, issues, h => by
      cases v <;> simp [zparse] at h <;> (subst h; simp)
  | .zliteral lit, _, p, v, issues, h => by
      by_cases hv : v = lit
      · simp [zparse, hv] at h
      · simp [zparse, hv] at h
        subst h
        simp
  | .zenum vals, _, p, v, issues, h => by
      cases v <;> simp [zparse] at h
      case str s =>
        by_cases hv : (Json.str s) ∈ vals
        · simp [hv] at h
        · simp [hv] at h
          subst h
          simp
      all_goals (subst h; simp)
  | .znum, _, p, v, issues, h => by
      cases v <;> simp [zparse] at h <;> (subst h; simp)
  | .zbool, _, p, v, issues, h => by
      cases v <;> simp [zparse] at h <;> (subst h; simp)
  | .znull, _, p, v, issues, h => by
      cases v <;> simp [zparse] at h <;> (subst h; simp)
  | .znullable t, hwf, p, v, issues, h => by
      cases v with
      | null => simp [zparse] at h
      | bool b => exact zparse_nodup t hwf p _ issues h
      | num n => exact zparse_nodup t hwf p _ issues h
      | str s => exact zparse_nodup t hwf p _ issues h
      | arr xs => exact zparse_nodup t hwf p _ issues h
      | obj fs => exact zparse_nodup t hwf p _ issues h
  | .zarr t, hwf, p, v, issues, h => by
      cases v <;> simp [zparse] at h
      case arr xs =>
        split at h
        · exact absurd h (by simp)
        · have hiss : issues = (zparseItems (zparse t) p xs 0).2 := by
            rcases h with h
            injection h with h2
            exact h2.symm
          rw [hiss]
          exact zparseItems_nodup (zparse t) p
            (fun p' v iss he => zparse_paths t p' v iss he)
            (fun p' v iss he => zparse_nodup t hwf p' v iss he) xs 0
      all_goals (subst h; simp)
  | .zunion vs, _, p, v, issues, h => by
      simp only [zparse] at h
      cases hu : zparseUnion vs p v with
      | some out => rw [hu] at h; simp at h
      | none =>
          rw [hu] at h
          simp at h
          subst h
          simp
  | .zrecordAny, _, p, v, issues, h => by
      cases v <;> simp [zparse] at h <;> (subst h; simp)
  | .zobj sh catchall, hwf, p, v, issues, h => by
      have hwf2 : keysNodupB (sh.map (fun e => e.1)) = true ∧ wfShapeB sh = true := by
        simpa [ZodType.wfB, Bool.and_eq_true] using hwf
      cases v <;> simp [zparse] at h
      case obj fields =>
        split at h
        · exact absurd h (by simp)
        · have hiss : issues = (zparseShape sh p fields).2 := by
            rcases h with h
            injection h with h2
            exact h2.symm
          rw [hiss]
          exact zparseShape_nodup p fields sh
            (fun e he p' v iss hx =>
              match e, he with
              | (k1, t1, b1), he1 => zparse_paths t1 p' v iss hx)
            (fun e he p' v iss hx =>
              match e, he with
              | (k1, t1, b1), he1 =>
                  zparse_nodup t1 (wfShapeB_mem hwf2.2 (k1, t1, b1) he1) p' v iss hx)
            hwf2.1
      all_goals (subst h; simp)
termination_by t => sizeOf t
decreasing_by
  all_goals simp
  all_goals try omega
  all_goals
    (have hm := List.sizeOf_lt_of_mem ‹(_, _, _) ∈ sh›
     simp at hm
     omega)

/-- C7: a document failing schema validation is rejected with 400, no
row is written to any table (the state is returned unchanged), and the
`details` list carries exactly one message per offending field path
(the issue paths are pairwise distinct and each contributes one rendered
message); the identically structured `POST responses` handler behaves
the same way for every truthy document — a falsy parsed body (`null`,
`0`, `""`, `false`) never reaches the validator: the `if (!doc)` guard
answers `invalid_json` first, which is the malformed-input case, not a
validation failure. -/
theorem claim7_validation (indexes : List String) (zodSchema : ZodType) (db : ItemsDb)
    (doc : Json) (issues : List Issue) (id : String) (ts : Int)
    (hwf : zodSchema.wfB = true)
    (herr : zparse zodSchema [] doc = .error issues) :
    (postItemsZ indexes zodSchema db doc id ts =
      (db, .err400 "invalid_document" (issues.map renderIssue))) ∧
    (issues.map Issue.path).Nodup ∧
    (issues.map renderIssue).length = issues.length ∧
    (∀ (rcfg : RespCfg) (rdb : RespDb) (doc2 : Json) (issues2 : List Issue),
      jsTruthy doc2 = true →
      zparse responsesZodSchema [] doc2 = .error issues2 →
      postResponses rcfg rdb (some doc2) id ts =
        (rdb, .err400 "invalid_response_document" (issues2.map renderIssue)) ∧
      (issues2.map Issue.path).Nodup) := by
  refine ⟨?_, zparse_nodup zodSchema hwf [] doc issues herr, by simp, ?_⟩
  · unfold postItemsZ
    rw [herr]
  · intro rcfg rdb doc2 issues2 htr2 herr2
    refine ⟨?_, zparse_nodup responsesZodSchema (by decide) [] doc2 issues2 herr2⟩
    unfold postResponses
    simp only [htr2, herr2, Bool.true_eq_false, if_false]

/-- C7 witness: the empty object fails the `{a: string, required}`
schema with exactly one message at path `a`, writing nothing; it also
fails the responses schema with one message per missing required key. -/
theorem claim7_validation_witness :
    (postItemsZ [] (.zobj [("a", .zstr, false)] false) ⟨[], []⟩ (.obj []) "u1" 0 =
      (⟨[], []⟩, .err400 "invalid_document"
        ([Issue.mk [.key "a"] "Required"].map renderIssue))) ∧
    (([Issue.mk [.key "a"] "Required"].map Issue.path).Nodup) ∧
    (postResponses ⟨[], 1000⟩ ⟨[], []⟩ (some (.obj [])) "u1" 0 =
      (⟨[], []⟩, .err400 "invalid_response_document"
        (([Issue.mk [.key "id"] "Required", Issue.mk [.key "object"] "Required",
           Issue.mk [.key "created_at"] "Required", Issue.mk [.key "status"] "Required",
           Issue.mk [.key "model"] "Required",
           Issue.mk [.key "output"] "Required"]).map renderIssue))) ∧
    (([Issue.mk [.key "id"] "Required", Issue.mk [.key "object"] "Required",
       Issue.mk [.key "created_at"] "Required", Issue.mk [.key "status"] "Required",
       Issue.mk [.key "model"] "Required",
       Issue.mk [.key "output"] "Required"].map Issue.path).Nodup) := by
  have h := claim7_validation [] (.zobj [("a", .zstr, false)] false) ⟨[], []⟩ (.obj [])
    [Issue.mk [.key "a"] "Required"] "u1" 0 (by decide) (by decide)
  have h2 := h.2.2.2 ⟨[], 1000⟩ ⟨[], []⟩ (.obj [])
    [Issue.mk [.key "id"] "Required", Issue.mk [.key "object"] "Required",
     Issue.mk [.key "created_at"] "Required", Issue.mk [.key "status"] "Required",
     Issue.mk [.key "model"] "Required", Issue.mk [.key "output"] "Required"]
    (by decide) (by decide)
  exact ⟨h.1, h.2.1, h2.1, h2.2⟩
